import Mathlib

/-!
# Verification of the REST services

Three developments, each with its definitions in its own namespace: the
pub/sub broker of lab13 (`Lab13`), the message store of lab10, lab11 and
lab12 (`Lab11`), and the base64 buffer of the Poczta client
(`PocztaClient`).  The definitions come first, the theorems after them.

# Pub/sub broker of `src/lab13/server.cpp`

A shallow embedding of the broker: the subscription registry
(`Server::_subscribers`), the publish queue (`Server::_published_messages`),
the two request handlers (`Server::subscribe`, `Server::publish`) and one
iteration of the delivery loop (`Server::deliverer`).

Every access to the registry and to the queue happens while `_m` is held:
both handlers take a `std::lock_guard` before they touch the state, and the
deliverer holds its `std::unique_lock` from the wait until the end of the
iteration (the outbound calls included).  The critical sections are therefore
serialized, and a run of the broker is a sequence of atomic events: a
Subscribe, a Publish, or one iteration of the delivery loop.

Two finer views complete the embedding.  `Action` lists the statements of a
handler or of an iteration in program order, with the scope of the lock
object, for the claims about what is executed while `_m` is held.  `Broker`
adds the control state of the worker thread (runnable, or suspended in
`_cv.wait`) for the claims about wake-ups.
-/

namespace Lab13

/-! ## JSON values (the `nlohmann::json` value the handlers work on) -/

/-- The value kinds of `nlohmann::json`.  An object is its list of members;
`Json.at` looks a key up in it. -/
inductive Json where
  | null
  | boolean (b : Bool)
  | number_integer (n : Int)
  | number_unsigned (n : Nat)
  | number_float (bits : Nat)
  | string (s : String)
  | array (elems : List Json)
  | object (members : List (String × Json))

/-- The exceptions that reach the `catch (const std::exception&)` of a handler. -/
inductive Exn where
  /-- `std::runtime_error` thrown by the handler on a `/json` header. -/
  | runtime_error
  /-- `json::parse_error`: the body is not JSON text. -/
  | parse_error
  /-- `json::type_error` with its id (304: `at` on a non-object,
  302: `get_to` a string from a non-string). -/
  | type_error (id : Nat)
  /-- `json::out_of_range` 403: `at` with a key the object lacks. -/
  | out_of_range (key : String)
  deriving DecidableEq

/-- The call `j.at(key)`. -/
def Json.at (j : Json) (key : String) : Except Exn Json :=
  match j with
  | .object members =>
    match members.lookup key with
    | some v => .ok v
    | none => .error (.out_of_range key)
  | _ => .error (.type_error 304)

/-- The call `j.get_to(s)` for a `std::string& s`. -/
def Json.get_to_string (j : Json) : Except Exn String :=
  match j with
  | .string s => .ok s
  | _ => .error (.type_error 302)

/-! ## Data model (`shared.h`) -/

/-- Modelled from the spec: `ns::Message` of `shared.h`, which is not among the
sources; `Message = {author: string, contents: string}`, with the field names
`to_json` and `from_json` use. -/
structure Message where
  author : String
  contents : String
  deriving DecidableEq

/-- Modelled from the spec: `ns::Subscription` of `shared.h`, which is not
among the sources; `Subscription = {callbackURL: string}`, with the field name
`to_json` and `from_json` use. -/
structure Subscription where
  client_callback_url : String
  deriving DecidableEq

/-- The function `ns::to_json(json&, const Message&)`. -/
def to_json (m : Message) : Json :=
  .object [("author", .string m.author), ("contents", .string m.contents)]

/-- The function `ns::from_json(const json&, Message&)`, on the default
constructed message of `get<ns::Message>()`. -/
def from_json (j : Json) : Except Exn Message := do
  let author ← (← j.at "author").get_to_string
  let contents ← (← j.at "contents").get_to_string
  pure { author := author, contents := contents }

/-- The function `ns::from_json(const json&, Subscription&)`, on the default
constructed subscription of `get<ns::Subscription>()`. -/
def from_json_subscription (j : Json) : Except Exn Subscription := do
  let url ← (← j.at "client_callback_url").get_to_string
  pure { client_callback_url := url }

/-! ## Requests, responses, outbound calls -/

/-- What a handler reads of a `Rest::Request`: `has name` is
`request.headers().has(name)`, and `json` is the outcome of
`nlohmann::json::parse(request.body())`, `none` when the parser throws. -/
structure Request where
  has : String → Bool
  json : Option Json

/-- The call `nlohmann::json::parse(request.body())`. -/
def Request.parse (request : Request) : Except Exn Json :=
  match request.json with
  | some j => .ok j
  | none => .error .parse_error

/-- What a handler passes to `response.send`: `Http::Code::Ok` with its text,
or `Http::Code::Internal_Server_Error` for the exception caught. -/
inductive Response where
  | Ok (text : String)
  | Internal_Server_Error (e : Exn)
  deriving DecidableEq

/-- One call `client.post(url).body(body.dump()).send()`: the address and the
JSON value whose dump is the request body. -/
structure Outbound where
  url : String
  body : Json

/-! ## The broker -/

/-- The shared state of `Server`: the registry and the queue.  The queue is
listed from front (oldest) to back (newest). -/
structure Server where
  subscribers : List Subscription
  published_messages : List Message
  deriving DecidableEq

/-- A freshly constructed `Server`: both containers are empty. -/
def Server.fresh : Server := { subscribers := [], published_messages := [] }

/-- The call `std::queue::push`: insertion at the back. -/
def queue_push (q : List Message) (m : Message) : List Message := q ++ [m]

/-- The call `std::queue::back`: the newest element. -/
def queue_back (q : List Message) : Option Message := q.getLast?

/-- The call `std::queue::pop`: removal of the front element. -/
def queue_pop (q : List Message) : List Message := q.tail

/-- The `try` block of `Server::subscribe`. -/
def subscribe_try (s : Server) (request : Request) : Except Exn Server := do
  if request.has "/json" then throw Exn.runtime_error
  let subscription ← (← request.parse) |> from_json_subscription
  pure { s with subscribers := s.subscribers ++ [subscription] }

/-- The handler `Server::subscribe`: the state afterwards and the response. -/
def subscribe (s : Server) (request : Request) : Server × Response :=
  match subscribe_try s request with
  | .ok s' => (s', .Ok "Subscribed!!")
  | .error e => (s, .Internal_Server_Error e)

/-- The `try` block of `Server::publish`. -/
def publish_try (s : Server) (request : Request) : Except Exn Server := do
  if request.has "/json" then throw Exn.runtime_error
  let message ← (← request.parse) |> from_json
  pure { s with published_messages := queue_push s.published_messages message }

/-- The handler `Server::publish`: the state afterwards and the response. -/
def publish (s : Server) (request : Request) : Server × Response :=
  match publish_try s request with
  | .ok s' => (s', .Ok "Published!!")
  | .error e => (s, .Internal_Server_Error e)

/-- The `for` loop of `Server::deliverer`: one outbound call per entry of the
registry, in registry order, each with the same body. -/
def fan_out (subscribers : List Subscription) (body : Json) : List Outbound :=
  subscribers.map fun subscriber =>
    { url := subscriber.client_callback_url, body := body }

/-- One iteration of the `while (true)` of `Server::deliverer`.  `none` when
the predicate of `_cv.wait` is false (the queue is empty): the worker stays
suspended.  Otherwise the state afterwards and the outbound calls of the
iteration, in the order they are made. -/
def deliverer (s : Server) : Option (Server × List Outbound) :=
  if s.published_messages.isEmpty then none
  else
    match queue_back s.published_messages with
    | none => none
    | some message =>
      let body := to_json message
      let sent := fan_out s.subscribers body
      some ({ s with published_messages := queue_pop s.published_messages }, sent)

/-! ## Runs: serialized critical sections -/

/-- An atomic event of a run. -/
inductive Event where
  | subscribe (request : Request)
  | publish (request : Request)
  | deliver

/-- One event: the state afterwards and the outbound calls it makes.  `none`
for a deliverer iteration that cannot take place (empty queue).  The wake
signal `_cv.notify_one()` is not part of the state: `_cv.wait` tests its
predicate under the lock before it suspends and after every wake, so an
iteration can take place exactly when the queue is non-empty. -/
def step (s : Server) : Event → Option (Server × List Outbound)
  | .subscribe request => some ((subscribe s request).1, [])
  | .publish request => some ((publish s request).1, [])
  | .deliver => deliverer s

/-- A sequence of events from `s`: the final state and all outbound calls in
order. -/
def run (s : Server) : List Event → Option (Server × List Outbound)
  | [] => some (s, [])
  | e :: es =>
    match step s e with
    | none => none
    | some (s', sent) =>
      match run s' es with
      | none => none
      | some (s'', sent') => some (s'', sent ++ sent')


/-! ## Well-formed requests -/

/-- The JSON value `j` is an object whose member `key` is the string `value`. -/
def HasStringField (j : Json) (key value : String) : Prop :=
  ∃ members, j = .object members ∧ members.lookup key = some (.string value)

/-- A well-formed Publish request carrying `m`: no header named `/json`, and a
body that parses to an object with the string members `author` and
`contents` of `m`. -/
def WellFormedPublish (request : Request) (m : Message) : Prop :=
  request.has "/json" = false ∧
    ∃ j, request.json = some j ∧
      HasStringField j "author" m.author ∧ HasStringField j "contents" m.contents

/-- A well-formed Subscribe request for the callback URL `u`. -/
def WellFormedSubscribe (request : Request) (u : String) : Prop :=
  request.has "/json" = false ∧
    ∃ j, request.json = some j ∧ HasStringField j "client_callback_url" u

/-- A request body that is not parsable JSON, or that parses to a value in
which one of the required members `keys` is missing or is not a string. -/
def MalformedBody (request : Request) (keys : List String) : Prop :=
  request.json = none ∨
    ∃ j, request.json = some j ∧ ∃ key ∈ keys, ∀ value, ¬ HasStringField j key value

/-- The Publish request with no header whose body parses to `to_json m`. -/
def Request.ofMessage (m : Message) : Request :=
  { has := fun _ => false, json := some (to_json m) }

/-- The Subscribe request with no header whose body parses to the object
with the single member `client_callback_url = u`. -/
def Request.ofUrl (u : String) : Request :=
  { has := fun _ => false, json := some (.object [("client_callback_url", .string u)]) }

/-! ## Schedules -/

/-- Whether the event is an iteration of the delivery loop. -/
def Event.isDeliver : Event → Bool
  | .deliver => true
  | _ => false

/-- Whether the event is a Publish request. -/
def Event.isPublish : Event → Bool
  | .publish _ => true
  | _ => false

/-- A schedule made of well-formed Publish requests and iterations of the
delivery loop. -/
def PublishDeliverSchedule (es : List Event) : Prop :=
  ∀ e ∈ es, e = .deliver ∨ ∃ r m, e = .publish r ∧ WellFormedPublish r m

/-- The successful registrations of a schedule, in order: `Registers es us`
when `us` lists the callback URLs of the well-formed Subscribe requests of
`es` and every other Subscribe request of `es` is not well-formed. -/
inductive Registers : List Event → List String → Prop where
  | nil : Registers [] []
  | accepted {r : Request} {u : String} {es : List Event} {us : List String} :
      WellFormedSubscribe r u → Registers es us → Registers (.subscribe r :: es) (u :: us)
  | rejected {r : Request} {es : List Event} {us : List String} :
      (∀ u, ¬ WellFormedSubscribe r u) → Registers es us → Registers (.subscribe r :: es) us
  | publish {r : Request} {es : List Event} {us : List String} :
      Registers es us → Registers (.publish r :: es) us
  | deliver {es : List Event} {us : List String} :
      Registers es us → Registers (.deliver :: es) us

/-- The message `m` was accepted by a Publish request of the schedule. -/
def AcceptedBy (es : List Event) (m : Message) : Prop :=
  ∃ r, Event.publish r ∈ es ∧ WellFormedPublish r m

/-! ## Program order: the lock, the condition variable, the calls -/

/-- The statements of a handler or of the delivery loop that touch the mutex
`_m`, the condition variable `_cv`, the two containers, the network or the
response, in the order the source executes them. -/
inductive Action where
  /-- Construction of `std::unique_lock` or `std::lock_guard` on `_m`. -/
  | lock
  /-- Destruction of the lock object at the end of its scope. -/
  | unlock
  /-- Evaluation of the predicate of `_cv.wait`: is the queue non-empty? -/
  | wait_predicate (holds : Bool)
  /-- The predicate was false: `_cv.wait` releases `_m` and suspends. -/
  | suspend
  /-- The read `_published_messages.back()`. -/
  | back (message : Message)
  /-- One call `client.post(...).body(...).send()`. -/
  | send (o : Outbound)
  /-- The call `_published_messages.pop()`. -/
  | pop
  /-- The call `_published_messages.push(...)`. -/
  | push (message : Message)
  /-- The call `_subscribers.push_back(...)`. -/
  | push_back (subscription : Subscription)
  /-- The call `_cv.notify_one()`. -/
  | notify_one
  /-- The call `response.send(...)`. -/
  | respond (response : Response)

/-- Whether the thread holds `_m` after the action, given whether it held it
before. -/
def Action.holds_after (held : Bool) : Action → Bool
  | .lock => true
  | .unlock => false
  | .suspend => false
  | _ => held

/-- Whether `_m` is held by the thread after it has executed the actions,
starting without the lock. -/
def lock_held (actions : List Action) : Bool :=
  actions.foldl Action.holds_after false

/-- Whether every action selected by `p` is executed while the thread holds
`_m`, for a thread whose lock state at the start is `held`. -/
def under_lock (p : Action → Bool) : Bool → List Action → Bool
  | _, [] => true
  | held, a :: as => (!p a || held) && under_lock p (a.holds_after held) as

/-- One iteration of the `while (true)` of `Server::deliverer`, statement by
statement.  The `std::unique_lock` is declared first in the loop body and
lives until the end of the iteration. -/
def deliverer_actions (s : Server) : List Action :=
  if s.published_messages.isEmpty then [.lock, .wait_predicate false, .suspend]
  else
    match queue_back s.published_messages with
    | none => [.lock, .wait_predicate false, .suspend]
    | some message =>
      [.lock, .wait_predicate true, .back message] ++
        (fan_out s.subscribers (to_json message)).map Action.send ++ [.pop, .unlock]

/-- The handler `Server::publish`, statement by statement.  The
`std::lock_guard` is declared after the body is decoded and lives until the
end of the `try` block; an exception is thrown before it is declared. -/
def publish_actions (request : Request) : List Action :=
  if request.has "/json" then [.respond (.Internal_Server_Error .runtime_error)]
  else
    match request.parse >>= from_json with
    | .ok message => [.lock, .push message, .notify_one, .respond (.Ok "Published!!"), .unlock]
    | .error e => [.respond (.Internal_Server_Error e)]

/-- The handler `Server::subscribe`, statement by statement. -/
def subscribe_actions (request : Request) : List Action :=
  if request.has "/json" then [.respond (.Internal_Server_Error .runtime_error)]
  else
    match request.parse >>= from_json_subscription with
    | .ok subscription =>
      [.lock, .push_back subscription, .respond (.Ok "Subscribed!!"), .unlock]
    | .error e => [.respond (.Internal_Server_Error e)]

/-- The outbound calls among the actions, in order. -/
def sends : List Action → List Outbound
  | [] => []
  | .send o :: as => o :: sends as
  | _ :: as => sends as

/-! ## Outcomes of the outbound calls -/

/-- One iteration of the delivery loop with the outcome of every `send()` made
explicit: `outcome i` tells whether the `i`-th call of the iteration succeeds.
The loop drops the promise `send()` returns, so the outcome is recorded next
to the call and read nowhere. -/
def deliverer_observed (outcome : Nat → Bool) (s : Server) :
    Option (Server × List (Outbound × Bool)) :=
  if s.published_messages.isEmpty then none
  else
    match queue_back s.published_messages with
    | none => none
    | some message =>
      let body := to_json message
      let sent := (fan_out s.subscribers body).enum.map fun p => (p.2, outcome p.1)
      some ({ s with published_messages := queue_pop s.published_messages }, sent)

/-! ## The worker thread -/

/-- The thread function `Server::deliverer` followed for at most `fuel`
iterations of its `while (true)`: `some s` when the function has returned in
state `s`, `none` when it has not.  The loop has no `break`, no `return` and
no exit condition; an iteration whose wait predicate is false stays
suspended. -/
def deliverer_thread : Nat → Server → Option Server
  | 0, _ => none
  | fuel + 1, s =>
    match deliverer s with
    | none => none
    | some (s', _) => deliverer_thread fuel s'

/-- The destructor `Server::~Server`: the thread started by the constructor is
joinable, and `join()` returns once the thread function has returned. -/
def Server.destroy (fuel : Nat) (s : Server) : Option Unit :=
  (deliverer_thread fuel s).map fun _ => ()

/-- Where the worker thread stands between two critical sections: about to
take the lock and test the predicate, or suspended inside `_cv.wait`. -/
inductive Worker where
  | runnable
  | suspended
  deriving DecidableEq

/-- The broker together with the control state of its worker thread. -/
structure Broker where
  server : Server
  worker : Worker

/-- The events of the system: a request, a turn of the worker thread, or a
spurious wake of the condition variable. -/
inductive BrokerEvent where
  | subscribe (request : Request)
  | publish (request : Request)
  | worker
  | spurious_wake

/-- The effect of one action on the two containers and on the control state of
the worker, and the outbound call it makes.  `push`, `push_back` and `pop`
change a container; `notify_one` wakes the thread that waits on `_cv`, so the
worker is runnable afterwards; `suspend` leaves the worker inside
`_cv.wait`; `send` makes its call.  Taking and releasing the lock, testing
the predicate, reading `back()` and responding change neither. -/
def Broker.exec (sys : Broker) : Action → Broker × List Outbound
  | .push message =>
    ({ sys with server := { sys.server with
        published_messages := queue_push sys.server.published_messages message } }, [])
  | .push_back subscription =>
    ({ sys with server := { sys.server with
        subscribers := sys.server.subscribers ++ [subscription] } }, [])
  | .pop =>
    ({ sys with server := { sys.server with
        published_messages := queue_pop sys.server.published_messages } }, [])
  | .notify_one => ({ sys with worker := .runnable }, [])
  | .suspend => ({ sys with worker := .suspended }, [])
  | .send o => (sys, [o])
  | _ => (sys, [])

/-- The actions of one handler call or of one iteration, executed in order. -/
def Broker.exec_all (sys : Broker) : List Action → Broker × List Outbound
  | [] => (sys, [])
  | a :: as =>
    let r := sys.exec a
    let r' := Broker.exec_all r.1 as
    (r'.1, r.2 ++ r'.2)

/-- One event of the system: the statements of the handler or of the
iteration are executed in program order, without interleaving, since those
that touch the containers or the condition variable lie between `lock` and
`unlock` (or `suspend`) on the one mutex `_m`.  A suspended worker takes no
turn. -/
def Broker.step (sys : Broker) : BrokerEvent → Broker × List Outbound
  | .subscribe request => sys.exec_all (subscribe_actions request)
  | .publish request => sys.exec_all (publish_actions request)
  | .worker =>
    match sys.worker with
    | .suspended => (sys, [])
    | .runnable => sys.exec_all (deliverer_actions sys.server)
  | .spurious_wake => ({ sys with worker := .runnable }, [])

/-- A sequence of events of the system: the final state and the outbound
calls in order. -/
def Broker.run (sys : Broker) : List BrokerEvent → Broker × List Outbound
  | [] => (sys, [])
  | e :: es =>
    let r := sys.step e
    let r' := Broker.run r.1 es
    (r'.1, r.2 ++ r'.2)

/-- A schedule without backlog and the messages it publishes, in order: every
accepted Publish is followed by an iteration of the delivery loop before the
next accepted Publish, so that every iteration starts with exactly one queued
message.  Subscribe requests and rejected Publish requests may come anywhere. -/
inductive NoBacklog : List Event → List Message → Prop where
  | nil : NoBacklog [] []
  | quiet {e : Event} {es : List Event} {ms : List Message} :
      ((∃ r, e = .subscribe r) ∨ ∃ r, e = .publish r ∧ ∀ m, ¬ WellFormedPublish r m) →
      NoBacklog es ms → NoBacklog (e :: es) ms
  | round {r : Request} {m : Message} {mid es : List Event} {ms : List Message} :
      WellFormedPublish r m →
      (∀ e ∈ mid,
        (∃ r, e = .subscribe r) ∨ ∃ r, e = .publish r ∧ ∀ m, ¬ WellFormedPublish r m) →
      NoBacklog es ms → NoBacklog (.publish r :: mid ++ .deliver :: es) (m :: ms)

/-! ## The subscriber (`src/lab13/client.cpp`) -/

/-- The `try` block of `ClientSubscriber::inbox`, up to the decoded message.
The `to_json` and `from_json` of `client.cpp` have the text of those of
`server.cpp`. -/
def inbox_try (request : Request) : Except Exn Message := do
  if request.has "/json" then throw Exn.runtime_error
  (← request.parse) |> from_json

/-- The handler `ClientSubscriber::inbox`: the response. -/
def inbox (request : Request) : Response :=
  match inbox_try request with
  | .ok _ => .Ok "Received!"
  | .error e => .Internal_Server_Error e

/-- The request a subscriber gets for an outbound call of the broker: no
header named `/json`, and a body, the dump of `o.body`, that parses back to
`o.body`. -/
def Request.ofOutbound (o : Outbound) : Request :=
  { has := fun _ => false, json := some o.body }

end Lab13

/-! # Message store of `src/lab10/main.cpp`, `src/lab11/main.cpp`, `src/lab12/main.cpp`

The global `std::vector<Message> messages` is passed explicitly.  A
`std::string` is the list of its `char`s: each `Char` of a `String` stands for
one `char`.
-/

namespace Lab11

/-- The struct `ns::Message` of lab11 (lab10 has the same one). -/
structure Message where
  author : String
  id : Nat
  contents : String
  deriving DecidableEq

/-- The function `dbDeleteMessage`, whose text is the same in lab10, lab11 and
lab12, for any element type: the store afterwards, and the `runtime_error`
message when the function throws. -/
def dbDeleteMessage {α : Type} (messages : List α) (id : Nat) :
    List α × Except String Unit :=
  if id ≥ messages.length then
    (messages, .error ("No such message with id " ++ toString id))
  else
    (messages.eraseIdx id, .ok ())

/-- The C string at `data()`: the characters before the first NUL. -/
def c_str (data : List Char) : List Char :=
  data.takeWhile fun c => c != Char.ofNat 0

/-- The call `std::string_view(contents).substr(0, count)`: the first `count`
characters, fewer when `contents` is shorter. -/
def substr0 (contents : String) (count : Nat) : List Char :=
  contents.data.take count

/-- The condition of the loop of `dbGetMessagesStartingWith`:
`std::string_view(message.contents).substr(0, query.size()).compare(query.data()) == 0`.
The overload `compare(const char*)` compares with the C string at
`query.data()`. -/
def starts_with (contents query : String) : Bool :=
  substr0 contents query.length == c_str query.data

/-- The function `dbGetMessagesStartingWith` of lab11 (lab12 has the same text
over its own `Message`): the store is only read. -/
def dbGetMessagesStartingWith (messages : List Message) (query : String) : List Message :=
  messages.filter fun message => starts_with message.contents query

end Lab11

/-! # Base64 buffer of `src/poczta_client/client.cpp` -/

namespace PocztaClient

/-- The size of the output string in the callback of
`getSingleShipmentByBarCode`: `4ULL * body.length() / 3ULL`, in 64-bit
unsigned arithmetic. -/
def base64_buffer_size (length : Nat) : Nat :=
  (4 * length) % 2 ^ 64 / 3

/-- Modelled from the spec: the number of bytes the library call
`base64_encode` writes for `length` input bytes, `4*ceil(length/3)`: four
characters for every started group of three bytes; the library is not among
the sources. -/
def base64_encoded_length (length : Nat) : Nat :=
  4 * ((length + 2) / 3)

end PocztaClient

namespace Lab13

/-! ## Basic facts -/

theorem from_json_of_fields {j : Json} {m : Message}
    (ha : HasStringField j "author" m.author)
    (hc : HasStringField j "contents" m.contents) : from_json j = .ok m := by
  obtain ⟨ms, rfl, h1⟩ := ha
  obtain ⟨ms', h', h2⟩ := hc
  cases h'
  cases m
  simp_all [from_json, Json.at, Json.get_to_string, bind, Except.bind, pure, Except.pure]

theorem from_json_subscription_of_field {j : Json} {u : String}
    (h : HasStringField j "client_callback_url" u) :
    from_json_subscription j = .ok ⟨u⟩ := by
  obtain ⟨ms, rfl, h1⟩ := h
  simp_all [from_json_subscription, Json.at, Json.get_to_string, bind, Except.bind, pure,
    Except.pure]

theorem publish_wellFormed (s : Server) {request : Request} {m : Message}
    (h : WellFormedPublish request m) :
    publish s request =
      ({ subscribers := s.subscribers, published_messages := s.published_messages ++ [m] },
        .Ok "Published!!") := by
  obtain ⟨hh, j, hj, ha, hc⟩ := h
  simp [publish, publish_try, hh, Request.parse, hj, from_json_of_fields ha hc, queue_push,
    bind, Except.bind, pure, Except.pure]

theorem subscribe_wellFormed (s : Server) {request : Request} {u : String}
    (h : WellFormedSubscribe request u) :
    subscribe s request =
      ({ subscribers := s.subscribers ++ [⟨u⟩], published_messages := s.published_messages },
        .Ok "Subscribed!!") := by
  obtain ⟨hh, j, hj, hu⟩ := h
  simp [subscribe, subscribe_try, hh, Request.parse, hj, from_json_subscription_of_field hu,
    bind, Except.bind, pure, Except.pure]

theorem wellFormedPublish_ofMessage (m : Message) :
    WellFormedPublish (Request.ofMessage m) m :=
  ⟨rfl, to_json m, rfl, ⟨_, rfl, by simp⟩, ⟨_, rfl, by simp [List.lookup]⟩⟩

theorem wellFormedSubscribe_ofUrl (u : String) :
    WellFormedSubscribe (Request.ofUrl u) u :=
  ⟨rfl, _, rfl, ⟨_, rfl, by simp⟩⟩

theorem deliverer_nil (subs : List Subscription) :
    deliverer { subscribers := subs, published_messages := [] } = none := by
  simp [deliverer]

theorem deliverer_cons (subs : List Subscription) (m : Message) (q : List Message) :
    deliverer { subscribers := subs, published_messages := m :: q } =
      some ({ subscribers := subs, published_messages := q },
        fan_out subs (to_json (q.getLast?.getD m))) := by
  simp [deliverer, queue_back, queue_pop, List.getLast?_cons]


/-! ## Runs -/

theorem run_cons_some {s s1 s2 : Server} {e : Event} {es : List Event} {l1 l2 : List Outbound}
    (h1 : step s e = some (s1, l1)) (h2 : run s1 es = some (s2, l2)) :
    run s (e :: es) = some (s2, l1 ++ l2) := by
  simp [run, h1, h2]

theorem run_cons_inv {s s2 : Server} {e : Event} {es : List Event} {l : List Outbound}
    (h : run s (e :: es) = some (s2, l)) :
    ∃ s1 l1 l2, step s e = some (s1, l1) ∧ run s1 es = some (s2, l2) ∧ l = l1 ++ l2 := by
  simp only [run] at h
  cases hs : step s e with
  | none => simp [hs] at h
  | some p =>
    obtain ⟨s1, l1⟩ := p
    simp only [hs] at h
    cases hr : run s1 es with
    | none => simp [hr] at h
    | some p2 =>
      obtain ⟨s2', l2⟩ := p2
      simp only [hr, Option.some.injEq, Prod.mk.injEq] at h
      obtain ⟨h1, h2⟩ := h
      subst h1
      exact ⟨s1, l1, l2, rfl, hr, h2.symm⟩

theorem run_append_some {s s1 s2 : Server} {es fs : List Event} {l1 l2 : List Outbound}
    (h1 : run s es = some (s1, l1)) (h2 : run s1 fs = some (s2, l2)) :
    run s (es ++ fs) = some (s2, l1 ++ l2) := by
  induction es generalizing s l1 with
  | nil =>
    simp only [run, Option.some.injEq, Prod.mk.injEq] at h1
    obtain ⟨rfl, rfl⟩ := h1
    simpa using h2
  | cons e es ih =>
    obtain ⟨t, k1, k2, hstep, hrest, rfl⟩ := run_cons_inv h1
    have := run_cons_some hstep (ih hrest)
    simpa [List.append_assoc] using this

theorem step_publish_wellFormed (s : Server) {request : Request} {m : Message}
    (h : WellFormedPublish request m) :
    step s (.publish request) =
      some ({ subscribers := s.subscribers,
              published_messages := s.published_messages ++ [m] }, []) := by
  simp [step, publish_wellFormed s h]

theorem step_subscribe_wellFormed (s : Server) {request : Request} {u : String}
    (h : WellFormedSubscribe request u) :
    step s (.subscribe request) =
      some ({ subscribers := s.subscribers ++ [⟨u⟩],
              published_messages := s.published_messages }, []) := by
  simp [step, subscribe_wellFormed s h]

/-- Draining from a given state: the delivery loop runs once per queued
message, each iteration fanning out the newest message of the queue. -/
theorem run_drain (subs : List Subscription) (q : List Message) :
    run { subscribers := subs, published_messages := q }
        (List.replicate q.length Event.deliver) =
      some ({ subscribers := subs, published_messages := [] },
        (List.replicate q.length ()).flatMap fun _ =>
          fan_out subs (to_json (q.getLast?.getD ⟨"", ""⟩))) := by
  induction q with
  | nil => rfl
  | cons m q ih =>
    have hstep : step { subscribers := subs, published_messages := m :: q } Event.deliver =
        some ({ subscribers := subs, published_messages := q },
          fan_out subs (to_json (q.getLast?.getD m))) := by
      simp [step, deliverer_cons]
    simp only [List.length_cons, List.replicate_succ]
    rw [run_cons_some hstep ih]
    cases q with
    | nil => simp
    | cons m' q' =>
      simp [List.getLast?_cons]


theorem fields_of_from_json {j : Json} {m : Message} (h : from_json j = .ok m) :
    HasStringField j "author" m.author ∧ HasStringField j "contents" m.contents := by
  cases j with
  | object ms =>
    simp only [from_json, Json.at, bind, Except.bind, pure, Except.pure] at h
    cases ha : ms.lookup "author" with
    | none => simp [ha] at h
    | some a =>
      cases a with
      | string sa =>
        cases hc : ms.lookup "contents" with
        | none => simp [ha, hc, Json.get_to_string] at h
        | some c =>
          cases c with
          | string sc =>
            simp [ha, hc, Json.get_to_string] at h
            subst h
            exact ⟨⟨ms, rfl, ha⟩, ⟨ms, rfl, hc⟩⟩
          | _ => simp [ha, hc, Json.get_to_string] at h
      | _ => simp [ha, Json.get_to_string] at h
  | _ => simp [from_json, Json.at, bind, Except.bind] at h

theorem field_of_from_json_subscription {j : Json} {sub : Subscription}
    (h : from_json_subscription j = .ok sub) :
    HasStringField j "client_callback_url" sub.client_callback_url := by
  cases j with
  | object ms =>
    simp only [from_json_subscription, Json.at, bind, Except.bind, pure, Except.pure] at h
    cases hu : ms.lookup "client_callback_url" with
    | none => simp [hu] at h
    | some a =>
      cases a with
      | string sa =>
        simp [hu, Json.get_to_string] at h
        subst h
        exact ⟨ms, rfl, hu⟩
      | _ => simp [hu, Json.get_to_string] at h
  | _ => simp [from_json_subscription, Json.at, bind, Except.bind] at h

/-- A handler whose `try` block throws leaves the state as it was. -/
theorem publish_of_error (s : Server) (request : Request)
    (h : ∀ j, request.json = some j → ∀ m, from_json j ≠ .ok m) :
    ∃ e, publish s request = (s, .Internal_Server_Error e) := by
  unfold publish publish_try
  cases hh : request.has "/json" with
  | true => exact ⟨_, rfl⟩
  | false =>
    cases hj : request.json with
    | none => exact ⟨.parse_error, by simp [Request.parse, hj, bind, Except.bind, pure, Except.pure]⟩
    | some j =>
      cases hm : from_json j with
      | ok m => exact absurd hm (h j hj m)
      | error e =>
        exact ⟨e, by simp [Request.parse, hj, hm, bind, Except.bind, pure, Except.pure]⟩

theorem subscribe_of_error (s : Server) (request : Request)
    (h : ∀ j, request.json = some j → ∀ sub, from_json_subscription j ≠ .ok sub) :
    ∃ e, subscribe s request = (s, .Internal_Server_Error e) := by
  unfold subscribe subscribe_try
  cases hh : request.has "/json" with
  | true => exact ⟨_, rfl⟩
  | false =>
    cases hj : request.json with
    | none => exact ⟨.parse_error, by simp [Request.parse, hj, bind, Except.bind, pure, Except.pure]⟩
    | some j =>
      cases hm : from_json_subscription j with
      | ok m => exact absurd hm (h j hj m)
      | error e =>
        exact ⟨e, by simp [Request.parse, hj, hm, bind, Except.bind, pure, Except.pure]⟩


/-! ## Invariants of runs -/

theorem deliverer_inv {s s' : Server} {l : List Outbound} (h : deliverer s = some (s', l)) :
    ∃ m q, s.published_messages = m :: q ∧
      s' = { subscribers := s.subscribers, published_messages := q } ∧
      l = fan_out s.subscribers (to_json (q.getLast?.getD m)) := by
  obtain ⟨subs, queue⟩ := s
  cases queue with
  | nil => simp [deliverer_nil] at h
  | cons m q =>
    rw [deliverer_cons] at h
    simp only [Option.some.injEq, Prod.mk.injEq] at h
    exact ⟨m, q, rfl, h.1.symm, h.2.symm⟩

theorem subscribe_registry_grows (s : Server) (request : Request) :
    s.subscribers <+: (subscribe s request).1.subscribers := by
  unfold subscribe
  cases h : subscribe_try s request with
  | error e => exact List.prefix_refl _
  | ok s' =>
    unfold subscribe_try at h
    cases hh : request.has "/json" with
    | true => simp [hh, bind, Except.bind, throw, throwThe, MonadExceptOf.throw] at h
    | false =>
      cases hp : request.parse with
      | error e => simp [hh, hp, bind, Except.bind, pure, Except.pure] at h
      | ok j =>
        cases hf : from_json_subscription j with
        | error e => simp [hh, hp, hf, bind, Except.bind, pure, Except.pure] at h
        | ok sub =>
          simp [hh, hp, hf, bind, Except.bind, pure, Except.pure] at h
          subst h
          exact List.prefix_append _ _

theorem publish_subscribers (s : Server) (request : Request) :
    (publish s request).1.subscribers = s.subscribers := by
  unfold publish
  cases h : publish_try s request with
  | error e => rfl
  | ok s' =>
    unfold publish_try at h
    cases hh : request.has "/json" with
    | true => simp [hh, bind, Except.bind, throw, throwThe, MonadExceptOf.throw] at h
    | false =>
      cases hp : request.parse with
      | error e => simp [hh, hp, bind, Except.bind, pure, Except.pure] at h
      | ok j =>
        cases hf : from_json j with
        | error e => simp [hh, hp, hf, bind, Except.bind, pure, Except.pure] at h
        | ok m =>
          simp [hh, hp, hf, bind, Except.bind, pure, Except.pure] at h
          subst h
          rfl

theorem step_registry_grows {s s' : Server} {e : Event} {l : List Outbound}
    (h : step s e = some (s', l)) : s.subscribers <+: s'.subscribers := by
  cases e with
  | subscribe r =>
    simp only [step, Option.some.injEq, Prod.mk.injEq] at h
    rw [← h.1]
    exact subscribe_registry_grows s r
  | publish r =>
    simp only [step, Option.some.injEq, Prod.mk.injEq] at h
    rw [← h.1, publish_subscribers]
  | deliver =>
    obtain ⟨m, q, _, rfl, _⟩ := deliverer_inv h
    exact List.prefix_refl _

theorem run_registry_grows {s s' : Server} {es : List Event} {l : List Outbound}
    (h : run s es = some (s', l)) : s.subscribers <+: s'.subscribers := by
  induction es generalizing s l with
  | nil =>
    simp only [run, Option.some.injEq, Prod.mk.injEq] at h
    rw [h.1]
  | cons e es ih =>
    obtain ⟨t, k1, k2, hstep, hrest, rfl⟩ := run_cons_inv h
    exact (step_registry_grows hstep).trans (ih hrest)

theorem mem_fan_out {subs : List Subscription} {body : Json} {o : Outbound}
    (h : o ∈ fan_out subs body) :
    o.body = body ∧ ∃ sub ∈ subs, sub.client_callback_url = o.url := by
  simp only [fan_out, List.mem_map] at h
  obtain ⟨sub, hsub, rfl⟩ := h
  exact ⟨rfl, sub, hsub, rfl⟩

theorem run_counts {s s' : Server} {es : List Event} {l : List Outbound}
    (hev : PublishDeliverSchedule es) (h : run s es = some (s', l)) :
    s'.subscribers = s.subscribers ∧
    s'.published_messages.length + es.countP Event.isDeliver =
      s.published_messages.length + es.countP Event.isPublish ∧
    ∃ bodies : List Json, bodies.length = es.countP Event.isDeliver ∧
      l = bodies.flatMap (fan_out s.subscribers) := by
  induction es generalizing s l with
  | nil =>
    simp only [run, Option.some.injEq, Prod.mk.injEq] at h
    obtain ⟨rfl, rfl⟩ := h
    exact ⟨rfl, rfl, [], rfl, rfl⟩
  | cons e es ih =>
    obtain ⟨t, k1, k2, hstep, hrest, rfl⟩ := run_cons_inv h
    have hev' : PublishDeliverSchedule es := fun x hx => hev x (List.mem_cons_of_mem _ hx)
    obtain ⟨hsub, hlen, bodies, hb, rfl⟩ := ih hev' hrest
    rcases hev e (List.mem_cons_self _ _) with rfl | ⟨r, m, rfl, hwf⟩
    · obtain ⟨m, q, hq, rfl, rfl⟩ := deliverer_inv hstep
      refine ⟨hsub, ?_, to_json (q.getLast?.getD m) :: bodies, ?_, ?_⟩
      · simp only [List.countP_cons, Event.isDeliver, Event.isPublish, hq, List.length_cons] at hlen ⊢
        simp at hlen ⊢
        omega
      · simp [List.countP_cons, Event.isDeliver, hb]
      · simp [List.flatMap_cons]
    · rw [step_publish_wellFormed s hwf] at hstep
      simp only [Option.some.injEq, Prod.mk.injEq] at hstep
      obtain ⟨rfl, rfl⟩ := hstep
      refine ⟨hsub, ?_, bodies, ?_, ?_⟩
      · simp only [List.countP_cons, Event.isDeliver, Event.isPublish, List.length_append] at hlen ⊢
        simp at hlen ⊢
        omega
      · simp [List.countP_cons, Event.isDeliver, hb]
      · simp

theorem countP_fan_out (subs : List Subscription) (body : Json) (u : String) :
    (fan_out subs body).countP (fun o => o.url = u) =
      subs.countP (fun sub => sub.client_callback_url = u) := by
  induction subs with
  | nil => rfl
  | cons sub subs ih =>
    simp only [fan_out, List.map_cons, List.countP_cons] at ih ⊢
    rw [ih]

theorem countP_flatMap_fan_out (subs : List Subscription) (bodies : List Json) (u : String) :
    (bodies.flatMap (fan_out subs)).countP (fun o => o.url = u) =
      bodies.length * subs.countP (fun sub => sub.client_callback_url = u) := by
  induction bodies with
  | nil => simp
  | cons b bs ih =>
    simp only [List.flatMap_cons, List.countP_append, ih, countP_fan_out, List.length_cons]
    ring

theorem length_flatMap_fan_out (subs : List Subscription) (bodies : List Json) :
    (bodies.flatMap (fan_out subs)).length = bodies.length * subs.length := by
  induction bodies with
  | nil => simp
  | cons b bs ih =>
    simp only [List.flatMap_cons, List.length_append, ih, List.length_cons]
    simp [fan_out]
    ring

theorem run_publishes (s : Server) (reqs : List Request)
    (hwf : ∀ r ∈ reqs, ∃ m, WellFormedPublish r m) :
    ∃ msgs : List Message, msgs.length = reqs.length ∧
      run s (reqs.map Event.publish) =
        some ({ subscribers := s.subscribers,
                published_messages := s.published_messages ++ msgs }, []) := by
  induction reqs generalizing s with
  | nil => exact ⟨[], rfl, by simp [run]⟩
  | cons r rs ih =>
    obtain ⟨m, hm⟩ := hwf r (List.mem_cons_self _ _)
    obtain ⟨msgs, hlen, hrun⟩ := ih
      { subscribers := s.subscribers, published_messages := s.published_messages ++ [m] }
      (fun x hx => hwf x (List.mem_cons_of_mem _ hx))
    refine ⟨m :: msgs, by simp [hlen], ?_⟩
    rw [List.map_cons, run_cons_some (step_publish_wellFormed s hm) hrun]
    simp


theorem to_json_injective {m m' : Message} (h : to_json m = to_json m') : m = m' := by
  cases m; cases m'
  simp [to_json] at h
  simp [h]

/-- C1 (FIFO delivery), evaluated on the code: with the single subscriber
`http://sub/inbox`, publishing A, B, C before the worker runs and then draining
the queue sends the payload of C three times, so the deliveries are not
A, B, C. -/
theorem fifo_delivery_diverges :
    run Server.fresh
        [.subscribe (Request.ofUrl "http://sub/inbox"),
         .publish (Request.ofMessage ⟨"p", "A"⟩),
         .publish (Request.ofMessage ⟨"p", "B"⟩),
         .publish (Request.ofMessage ⟨"p", "C"⟩),
         .deliver, .deliver, .deliver] =
      some (⟨[⟨"http://sub/inbox"⟩], []⟩,
        [⟨"http://sub/inbox", to_json ⟨"p", "C"⟩⟩,
         ⟨"http://sub/inbox", to_json ⟨"p", "C"⟩⟩,
         ⟨"http://sub/inbox", to_json ⟨"p", "C"⟩⟩]) ∧
    [to_json ⟨"p", "C"⟩, to_json ⟨"p", "C"⟩, to_json ⟨"p", "C"⟩] ≠
      [to_json ⟨"p", "A"⟩, to_json ⟨"p", "B"⟩, to_json ⟨"p", "C"⟩] := by
  refine ⟨rfl, ?_⟩
  simp [to_json]

/-- C2 (DequeueOldest), evaluated on the code: on the queue A, B (A the
oldest) one iteration of the delivery loop sends the payload of B, the newest
message, and removes A, which was never sent; B stays in the queue. -/
theorem dequeue_oldest_diverges :
    deliverer ⟨[⟨"http://sub/inbox"⟩], [⟨"p", "A"⟩, ⟨"p", "B"⟩]⟩ =
      some (⟨[⟨"http://sub/inbox"⟩], [⟨"p", "B"⟩]⟩,
        [⟨"http://sub/inbox", to_json ⟨"p", "B"⟩⟩]) ∧
    to_json ⟨"p", "B"⟩ ≠ to_json ⟨"p", "A"⟩ := by
  refine ⟨rfl, ?_⟩
  simp [to_json]

/-- C3 (no message duplicated or dropped), evaluated on the code: two distinct
messages A and B published before the worker runs, then two iterations of the
delivery loop: the subscriber gets B twice and never gets A. -/
theorem no_duplicate_no_drop_diverges :
    run Server.fresh
        [.subscribe (Request.ofUrl "http://sub/inbox"),
         .publish (Request.ofMessage ⟨"p", "A"⟩),
         .publish (Request.ofMessage ⟨"q", "B"⟩),
         .deliver, .deliver] =
      some (⟨[⟨"http://sub/inbox"⟩], []⟩,
        [⟨"http://sub/inbox", to_json ⟨"q", "B"⟩⟩,
         ⟨"http://sub/inbox", to_json ⟨"q", "B"⟩⟩]) ∧
    (⟨"http://sub/inbox", to_json ⟨"p", "A"⟩⟩ : Outbound) ∉
      [⟨"http://sub/inbox", to_json ⟨"q", "B"⟩⟩,
       ⟨"http://sub/inbox", to_json ⟨"q", "B"⟩⟩] := by
  refine ⟨rfl, ?_⟩
  simp [to_json]


/-- C4 (delivery count): in every run of well-formed publishes and iterations
of the delivery loop from an empty queue, with M the number of publishes, the
queue length plus the number of iterations is M; the run can always be
completed by one iteration per queued message, which empties the queue; and
once the queue is empty exactly M iterations have run and the outbound calls
are M consecutive fan-outs over the unchanged registry: M calls per registry
entry, M times the registry size in total. -/
theorem delivery_count (s s' : Server) (es : List Event) (log : List Outbound)
    (hq : s.published_messages = [])
    (hev : PublishDeliverSchedule es)
    (hrun : run s es = some (s', log)) :
    s'.subscribers = s.subscribers ∧
    s'.published_messages.length + es.countP Event.isDeliver = es.countP Event.isPublish ∧
    (∃ log', run s (es ++ List.replicate s'.published_messages.length Event.deliver) =
      some ({ subscribers := s.subscribers, published_messages := [] }, log')) ∧
    (s'.published_messages = [] →
      es.countP Event.isDeliver = es.countP Event.isPublish ∧
      (∃ bodies : List Json, bodies.length = es.countP Event.isPublish ∧
        log = bodies.flatMap (fan_out s.subscribers)) ∧
      log.length = es.countP Event.isPublish * s.subscribers.length ∧
      ∀ u, log.countP (fun o => o.url = u) =
        es.countP Event.isPublish *
          s.subscribers.countP (fun sub => sub.client_callback_url = u)) := by
  obtain ⟨hsub, hlen, bodies, hb, hlog⟩ := run_counts hev hrun
  rw [hq, List.length_nil, Nat.zero_add] at hlen
  refine ⟨hsub, hlen, ?_, ?_⟩
  · obtain ⟨subs', q'⟩ := s'
    have hd := run_append_some hrun (run_drain subs' q')
    simp only at hsub
    rw [hsub] at hd
    exact ⟨_, hd⟩
  · intro hdrained
    rw [hdrained, List.length_nil, Nat.zero_add] at hlen
    rw [hlen] at hb
    refine ⟨hlen, ⟨bodies, hb, hlog⟩, ?_, ?_⟩
    · rw [hlog, length_flatMap_fan_out, hb]
    · intro u
      rw [hlog, countP_flatMap_fan_out, hb]

/-- Witness of C4: publish, deliver, publish, publish, deliver, deliver with
two registry entries. -/
theorem delivery_count_witness :
    (∃ log', run ⟨[⟨"u"⟩, ⟨"v"⟩], []⟩
        ([.publish (Request.ofMessage ⟨"p", "A"⟩), .deliver,
          .publish (Request.ofMessage ⟨"p", "B"⟩),
          .publish (Request.ofMessage ⟨"p", "C"⟩), .deliver, .deliver] ++
          List.replicate 0 Event.deliver) =
      some ({ subscribers := [⟨"u"⟩, ⟨"v"⟩], published_messages := [] }, log')) ∧
    (List.length (fan_out [⟨"u"⟩, ⟨"v"⟩] (to_json ⟨"p", "A"⟩) ++
        (fan_out [⟨"u"⟩, ⟨"v"⟩] (to_json ⟨"p", "C"⟩) ++
          fan_out [⟨"u"⟩, ⟨"v"⟩] (to_json ⟨"p", "C"⟩))) = 3 * 2) := by
  have hev : PublishDeliverSchedule
      [.publish (Request.ofMessage ⟨"p", "A"⟩), .deliver,
       .publish (Request.ofMessage ⟨"p", "B"⟩),
       .publish (Request.ofMessage ⟨"p", "C"⟩), .deliver, .deliver] := by
    intro e he
    simp only [List.mem_cons, List.mem_singleton, List.not_mem_nil, or_false] at he
    rcases he with rfl | rfl | rfl | rfl | rfl | rfl
    · exact Or.inr ⟨_, _, rfl, wellFormedPublish_ofMessage _⟩
    · exact Or.inl rfl
    · exact Or.inr ⟨_, _, rfl, wellFormedPublish_ofMessage _⟩
    · exact Or.inr ⟨_, _, rfl, wellFormedPublish_ofMessage _⟩
    · exact Or.inl rfl
    · exact Or.inl rfl
  have h := delivery_count ⟨[⟨"u"⟩, ⟨"v"⟩], []⟩ ⟨[⟨"u"⟩, ⟨"v"⟩], []⟩ _
    (fan_out [⟨"u"⟩, ⟨"v"⟩] (to_json ⟨"p", "A"⟩) ++
        (fan_out [⟨"u"⟩, ⟨"v"⟩] (to_json ⟨"p", "C"⟩) ++
          fan_out [⟨"u"⟩, ⟨"v"⟩] (to_json ⟨"p", "C"⟩))) rfl hev rfl
  exact ⟨h.2.2.1, (h.2.2.2 rfl).2.2.1⟩


/-- C6 (duplicate registration), evaluated on the code: after two successful
Subscribes with the same URL the registry holds two entries for it; A and B
are then published before the worker runs, and the two iterations of the
delivery loop make four calls carrying B and none carrying A. -/
theorem duplicate_registration_diverges :
    run Server.fresh
        [.subscribe (Request.ofUrl "http://sub/inbox"),
         .subscribe (Request.ofUrl "http://sub/inbox"),
         .publish (Request.ofMessage ⟨"p", "A"⟩),
         .publish (Request.ofMessage ⟨"p", "B"⟩),
         .deliver, .deliver] =
      some (⟨[⟨"http://sub/inbox"⟩, ⟨"http://sub/inbox"⟩], []⟩,
        [⟨"http://sub/inbox", to_json ⟨"p", "B"⟩⟩,
         ⟨"http://sub/inbox", to_json ⟨"p", "B"⟩⟩,
         ⟨"http://sub/inbox", to_json ⟨"p", "B"⟩⟩,
         ⟨"http://sub/inbox", to_json ⟨"p", "B"⟩⟩]) ∧
    (⟨"http://sub/inbox", to_json ⟨"p", "A"⟩⟩ : Outbound) ∉
      [⟨"http://sub/inbox", to_json ⟨"p", "B"⟩⟩,
       ⟨"http://sub/inbox", to_json ⟨"p", "B"⟩⟩,
       ⟨"http://sub/inbox", to_json ⟨"p", "B"⟩⟩,
       ⟨"http://sub/inbox", to_json ⟨"p", "B"⟩⟩] := by
  refine ⟨rfl, ?_⟩
  simp [to_json]


/-- C7 (zero subscribers): on a broker with an empty registry and an empty
queue, any N well-formed publishes followed by N iterations of the delivery
loop all take place, make no outbound call, and leave the queue empty. -/
theorem zero_subscribers (s : Server) (reqs : List Request)
    (hsub : s.subscribers = []) (hq : s.published_messages = [])
    (hwf : ∀ r ∈ reqs, ∃ m, WellFormedPublish r m) :
    run s (reqs.map Event.publish ++ List.replicate reqs.length Event.deliver) =
      some ({ subscribers := [], published_messages := [] }, []) := by
  obtain ⟨msgs, hlen, hpub⟩ := run_publishes s reqs hwf
  rw [hsub, hq, List.nil_append] at hpub
  have hd := run_drain [] msgs
  rw [hlen] at hd
  have hnil : ∀ n : Nat,
      ((List.replicate n ()).flatMap fun _ => ([] : List Outbound)) = [] := by
    intro n
    induction n with
    | zero => rfl
    | succ n ih => simp [List.replicate_succ, ih]
  have := run_append_some hpub hd
  simpa [fan_out, hnil] using this

/-- Witness of C7: three publishes and three iterations with no subscriber. -/
theorem zero_subscribers_witness :
    run Server.fresh
        ([Request.ofMessage ⟨"p", "A"⟩, Request.ofMessage ⟨"p", "B"⟩,
            Request.ofMessage ⟨"p", "C"⟩].map Event.publish ++
          List.replicate
            [Request.ofMessage ⟨"p", "A"⟩, Request.ofMessage ⟨"p", "B"⟩,
              Request.ofMessage ⟨"p", "C"⟩].length Event.deliver) =
      some ({ subscribers := [], published_messages := [] }, []) :=
  zero_subscribers Server.fresh _ rfl rfl (by
    intro r hr
    simp only [List.mem_cons, List.mem_singleton, List.not_mem_nil, or_false] at hr
    rcases hr with rfl | rfl | rfl
    · exact ⟨_, wellFormedPublish_ofMessage _⟩
    · exact ⟨_, wellFormedPublish_ofMessage _⟩
    · exact ⟨_, wellFormedPublish_ofMessage _⟩)

/-- C8 (end-to-end scenario): on a fresh broker, a well-formed Subscribe for
`http://sub1/inbox`, a well-formed Publish of author `alice`, contents `hello`
and one iteration of the delivery loop produce exactly one outbound call, to
`http://sub1/inbox`, whose payload is the JSON object with author = `alice`
and contents = `hello`. -/
theorem end_to_end_scenario (rs rp : Request)
    (hs : WellFormedSubscribe rs "http://sub1/inbox")
    (hp : WellFormedPublish rp ⟨"alice", "hello"⟩) :
    run Server.fresh [.subscribe rs, .publish rp, .deliver] =
      some ({ subscribers := [⟨"http://sub1/inbox"⟩], published_messages := [] },
        [⟨"http://sub1/inbox",
          .object [("author", .string "alice"), ("contents", .string "hello")]⟩]) := by
  have e1 := step_subscribe_wellFormed Server.fresh hs
  have e2 := step_publish_wellFormed ⟨[] ++ [⟨"http://sub1/inbox"⟩], []⟩ hp
  have e3 : step ⟨[] ++ [⟨"http://sub1/inbox"⟩], [] ++ [⟨"alice", "hello"⟩]⟩ Event.deliver =
      some (⟨[⟨"http://sub1/inbox"⟩], []⟩,
        [⟨"http://sub1/inbox",
          .object [("author", .string "alice"), ("contents", .string "hello")]⟩]) := rfl
  have r3 := run_cons_some e3 (rfl : run ⟨[⟨"http://sub1/inbox"⟩], []⟩ [] = some (_, []))
  have r2 := run_cons_some e2 r3
  have r1 := run_cons_some e1 r2
  simpa using r1

/-- Witness of C8: the requests whose bodies parse to the two JSON objects. -/
theorem end_to_end_scenario_witness :
    run Server.fresh
        [.subscribe (Request.ofUrl "http://sub1/inbox"),
         .publish (Request.ofMessage ⟨"alice", "hello"⟩), .deliver] =
      some ({ subscribers := [⟨"http://sub1/inbox"⟩], published_messages := [] },
        [⟨"http://sub1/inbox",
          .object [("author", .string "alice"), ("contents", .string "hello")]⟩]) :=
  end_to_end_scenario _ _ (wellFormedSubscribe_ofUrl _) (wellFormedPublish_ofMessage _)

/-- C9 (MalformedInput is atomic): a Subscribe request whose body is not
parsable JSON or lacks a string member `client_callback_url`, and a Publish
request whose body is not parsable JSON or lacks a string member `author` or a
string member `contents`, are answered with an error response, and the state
(registry and queue) is what it was before the request. -/
theorem malformed_input_atomic (s : Server) (request : Request) :
    (MalformedBody request ["client_callback_url"] →
      ∃ e, subscribe s request = (s, .Internal_Server_Error e)) ∧
    (MalformedBody request ["author", "contents"] →
      ∃ e, publish s request = (s, .Internal_Server_Error e)) := by
  constructor
  · intro h
    apply subscribe_of_error
    intro j hj sub hsub
    rcases h with h | ⟨j', hj', key, hkey, hno⟩
    · rw [h] at hj; cases hj
    · rw [hj] at hj'; cases hj'
      simp only [List.mem_singleton] at hkey
      subst hkey
      exact hno _ (field_of_from_json_subscription hsub)
  · intro h
    apply publish_of_error
    intro j hj m hm
    rcases h with h | ⟨j', hj', key, hkey, hno⟩
    · rw [h] at hj; cases hj
    · rw [hj] at hj'; cases hj'
      simp only [List.mem_cons, List.mem_singleton, List.not_mem_nil, or_false] at hkey
      rcases hkey with rfl | rfl
      · exact hno _ (fields_of_from_json hm).1
      · exact hno _ (fields_of_from_json hm).2

/-- Witness of C9: a Publish body with `author` present and `contents`
missing is rejected by the broker that already holds a subscriber and a
queued message, and both stay as they were. -/
theorem malformed_input_atomic_witness :
    ∃ e, publish ⟨[⟨"http://sub/inbox"⟩], [⟨"p", "A"⟩]⟩
        ⟨fun _ => false, some (.object [("author", .string "alice")])⟩ =
      (⟨[⟨"http://sub/inbox"⟩], [⟨"p", "A"⟩]⟩, .Internal_Server_Error e) :=
  (malformed_input_atomic ⟨[⟨"http://sub/inbox"⟩], [⟨"p", "A"⟩]⟩
    ⟨fun _ => false, some (.object [("author", .string "alice")])⟩).2
    (Or.inr ⟨_, rfl, "contents", by simp, by
      intro value h
      obtain ⟨ms, hms, hl⟩ := h
      cases hms
      simp [List.lookup] at hl⟩)

/-- C10 (Publish effect and frame): a well-formed Publish request carrying `m`
is answered Ok, the queue afterwards is the old queue with `m` appended at
the tail, the registry is unchanged, and the event makes no outbound call. -/
theorem publish_effect_and_frame (s : Server) (request : Request) (m : Message)
    (h : WellFormedPublish request m) :
    publish s request =
      ({ subscribers := s.subscribers, published_messages := s.published_messages ++ [m] },
        .Ok "Published!!") ∧
    step s (.publish request) =
      some ({ subscribers := s.subscribers,
              published_messages := s.published_messages ++ [m] }, []) :=
  ⟨publish_wellFormed s h, step_publish_wellFormed s h⟩

/-- Witness of C10: a Publish of B to a broker with one subscriber and A
queued. -/
theorem publish_effect_and_frame_witness :
    publish ⟨[⟨"http://sub/inbox"⟩], [⟨"p", "A"⟩]⟩ (Request.ofMessage ⟨"p", "B"⟩) =
      ({ subscribers := [⟨"http://sub/inbox"⟩],
         published_messages := [⟨"p", "A"⟩] ++ [⟨"p", "B"⟩] }, .Ok "Published!!") ∧
    step ⟨[⟨"http://sub/inbox"⟩], [⟨"p", "A"⟩]⟩ (.publish (Request.ofMessage ⟨"p", "B"⟩)) =
      some ({ subscribers := [⟨"http://sub/inbox"⟩],
              published_messages := [⟨"p", "A"⟩] ++ [⟨"p", "B"⟩] }, []) :=
  publish_effect_and_frame _ _ _ (wellFormedPublish_ofMessage _)


/-! ## Facts for the registry, the iteration and the worker -/

theorem subscribe_not_wellFormed (s : Server) {request : Request}
    (h : ∀ u, ¬ WellFormedSubscribe request u) :
    ∃ e, subscribe s request = (s, .Internal_Server_Error e) := by
  unfold subscribe subscribe_try
  cases hh : request.has "/json" with
  | true => exact ⟨_, rfl⟩
  | false =>
    cases hj : request.json with
    | none => exact ⟨.parse_error, by simp [Request.parse, hj, bind, Except.bind, pure, Except.pure]⟩
    | some j =>
      cases hm : from_json_subscription j with
      | ok sub => exact absurd ⟨hh, j, hj, field_of_from_json_subscription hm⟩ (h _)
      | error e =>
        exact ⟨e, by simp [Request.parse, hj, hm, bind, Except.bind, pure, Except.pure]⟩

theorem deliverer_of_ne_nil (subs : List Subscription) (q : List Message) (h : q ≠ []) :
    deliverer { subscribers := subs, published_messages := q } =
      some ({ subscribers := subs, published_messages := q.tail },
        fan_out subs (to_json (q.getLast h))) := by
  cases q with
  | nil => exact absurd rfl h
  | cons m q =>
    rw [deliverer_cons]
    have : (m :: q).getLast? = some ((m :: q).getLast h) := List.getLast?_eq_getLast _ h
    rw [List.getLast?_cons] at this
    simp only [Option.some.injEq] at this
    simp [this]

theorem deliverer_thread_none (fuel : Nat) (s : Server) : deliverer_thread fuel s = none := by
  induction fuel generalizing s with
  | zero => rfl
  | succ n ih =>
    simp only [deliverer_thread]
    cases deliverer s with
    | none => rfl
    | some p => exact ih p.1

theorem run_registers {s s' : Server} {es : List Event} {us : List String}
    {l : List Outbound} (hreg : Registers es us) (h : run s es = some (s', l)) :
    s'.subscribers = s.subscribers ++ us.map Subscription.mk := by
  induction hreg generalizing s l with
  | nil =>
    simp only [run, Option.some.injEq, Prod.mk.injEq] at h
    simp [← h.1]
  | accepted hwf _ ih =>
    obtain ⟨t, k1, k2, hstep, hrest, rfl⟩ := run_cons_inv h
    rw [step_subscribe_wellFormed s hwf] at hstep
    simp only [Option.some.injEq, Prod.mk.injEq] at hstep
    rw [ih hrest, ← hstep.1]
    simp
  | rejected hno _ ih =>
    obtain ⟨t, k1, k2, hstep, hrest, rfl⟩ := run_cons_inv h
    obtain ⟨e, he⟩ := subscribe_not_wellFormed s hno
    simp only [step, he, Option.some.injEq, Prod.mk.injEq] at hstep
    rw [ih hrest, ← hstep.1]
  | publish _ ih =>
    obtain ⟨t, k1, k2, hstep, hrest, rfl⟩ := run_cons_inv h
    simp only [step, Option.some.injEq, Prod.mk.injEq] at hstep
    rw [ih hrest, ← hstep.1, publish_subscribers]
  | deliver _ ih =>
    obtain ⟨t, k1, k2, hstep, hrest, rfl⟩ := run_cons_inv h
    obtain ⟨m, q, _, rfl, _⟩ := deliverer_inv hstep
    rw [ih hrest]


theorem holds_before_of_under_lock {p : Action → Bool} {held : Bool} {actions pre post : List Action}
    {a : Action} (h : under_lock p held actions = true) (hd : actions = pre ++ a :: post)
    (hp : p a = true) : pre.foldl Action.holds_after held = true := by
  induction pre generalizing held actions with
  | nil =>
    subst hd
    simp only [List.nil_append, under_lock, hp, Bool.not_true, Bool.false_or,
      Bool.and_eq_true] at h
    simpa using h.1
  | cons b pre ih =>
    subst hd
    simp only [List.cons_append, under_lock, Bool.and_eq_true] at h
    simpa using ih h.2 rfl

theorem lock_held_of_under_lock {p : Action → Bool} {actions pre post : List Action}
    {a : Action} (h : under_lock p false actions = true) (hd : actions = pre ++ a :: post)
    (hp : p a = true) : lock_held pre = true :=
  holds_before_of_under_lock h hd hp

theorem under_lock_sends (p : Action → Bool) (calls : List Outbound) (rest : List Action) :
    under_lock p true (calls.map Action.send ++ rest) = under_lock p true rest := by
  induction calls with
  | nil => rfl
  | cons o os ih => simp [under_lock, Action.holds_after, ih]

theorem deliverer_actions_nil (subs : List Subscription) :
    deliverer_actions { subscribers := subs, published_messages := [] } =
      [.lock, .wait_predicate false, .suspend] := by
  simp [deliverer_actions]

theorem deliverer_actions_cons (subs : List Subscription) (m : Message) (q : List Message) :
    deliverer_actions { subscribers := subs, published_messages := m :: q } =
      .lock :: .wait_predicate true :: .back (q.getLast?.getD m) ::
        ((fan_out subs (to_json (q.getLast?.getD m))).map Action.send ++
          [.pop, .unlock]) := by
  simp [deliverer_actions, queue_back, List.getLast?_cons]

/-- In an iteration of the delivery loop every action is executed while the
lock is held. -/
theorem deliverer_actions_under_lock (s : Server) (p : Action → Bool)
    (hp : p .lock = false) : under_lock p false (deliverer_actions s) = true := by
  obtain ⟨subs, q⟩ := s
  cases q with
  | nil => simp [deliverer_actions_nil, under_lock, Action.holds_after, hp]
  | cons m q =>
    rw [deliverer_actions_cons]
    simp only [under_lock, Action.holds_after, hp]
    rw [under_lock_sends]
    simp [under_lock, Action.holds_after]

theorem sends_map_send (calls : List Outbound) (rest : List Action) :
    sends (calls.map Action.send ++ rest) = calls ++ sends rest := by
  induction calls with
  | nil => rfl
  | cons o os ih => simp [sends, ih]

/-- The outbound calls of the statement-by-statement iteration are those of
`deliverer`. -/
theorem sends_deliverer_actions (s : Server) :
    sends (deliverer_actions s) = ((deliverer s).map Prod.snd).getD [] := by
  obtain ⟨subs, q⟩ := s
  cases q with
  | nil => simp [deliverer_actions_nil, deliverer_nil, sends]
  | cons m q =>
    rw [deliverer_actions_cons, deliverer_cons]
    simp only [sends]
    rw [sends_map_send]
    simp [sends]


/-- C11 (Subscribe effect and frame): for every string `u` and every state of
the broker, a Subscribe request whose body is a JSON object with
`client_callback_url = u` (a request as a client sends it, with no header
named `/json`) is answered Ok, the registry afterwards is the old registry
with `u` appended at the end, whatever `u` is and whether or not it is
registered already, the queue is unchanged, and the event makes no outbound
call. -/
theorem subscribe_effect_and_frame (s : Server) (request : Request) (u : String)
    (h : WellFormedSubscribe request u) :
    subscribe s request =
      ({ subscribers := s.subscribers ++ [⟨u⟩], published_messages := s.published_messages },
        .Ok "Subscribed!!") ∧
    step s (.subscribe request) =
      some ({ subscribers := s.subscribers ++ [⟨u⟩],
              published_messages := s.published_messages }, []) :=
  ⟨subscribe_wellFormed s h, step_subscribe_wellFormed s h⟩

/-- Witness of C11: the empty string as URL, registered a second time, with a
message queued. -/
theorem subscribe_effect_and_frame_witness :
    subscribe ⟨[⟨""⟩], [⟨"p", "A"⟩]⟩ (Request.ofUrl "") =
      ({ subscribers := [⟨""⟩] ++ [⟨""⟩], published_messages := [⟨"p", "A"⟩] },
        .Ok "Subscribed!!") ∧
    step ⟨[⟨""⟩], [⟨"p", "A"⟩]⟩ (.subscribe (Request.ofUrl "")) =
      some ({ subscribers := [⟨""⟩] ++ [⟨""⟩], published_messages := [⟨"p", "A"⟩] }, []) :=
  subscribe_effect_and_frame _ _ _ (wellFormedSubscribe_ofUrl _)

/-- C12 (the registry is append-only and order-preserving): for every event
(Subscribe, Publish, iteration of the delivery loop, accepted or rejected)
the registry before is an initial segment of the registry after, the same
holds for every run, and a run from an empty registry whose successful
registrations are `u1, ..., un` in this order ends with the registry
`[u1, ..., un]`, whatever other events it contains. -/
theorem registry_append_only (s : Server) :
    (∀ e s' l, step s e = some (s', l) → s.subscribers <+: s'.subscribers) ∧
    (∀ es s' l, run s es = some (s', l) → s.subscribers <+: s'.subscribers) ∧
    (∀ es us s' l, s.subscribers = [] → Registers es us → run s es = some (s', l) →
      s'.subscribers = us.map Subscription.mk) :=
  ⟨fun _ _ _ h => step_registry_grows h, fun _ _ _ h => run_registry_grows h,
    fun _ _ _ _ hs hreg h => by rw [run_registers hreg h, hs, List.nil_append]⟩

/-- Witness of C12: two registrations interleaved with a rejected Subscribe, a
Publish and an iteration of the delivery loop. -/
theorem registry_append_only_witness :
    run Server.fresh
        [.subscribe (Request.ofUrl "u1"), .publish (Request.ofMessage ⟨"p", "A"⟩),
         .subscribe ⟨fun _ => false, none⟩, .deliver, .subscribe (Request.ofUrl "u2")] =
      some (⟨[⟨"u1"⟩, ⟨"u2"⟩], []⟩, [⟨"u1", to_json ⟨"p", "A"⟩⟩]) ∧
    ({ subscribers := [⟨"u1"⟩, ⟨"u2"⟩], published_messages := [] } : Server).subscribers =
      ["u1", "u2"].map Subscription.mk :=
  ⟨rfl, (registry_append_only Server.fresh).2.2
    [.subscribe (Request.ofUrl "u1"), .publish (Request.ofMessage ⟨"p", "A"⟩),
     .subscribe ⟨fun _ => false, none⟩, .deliver, .subscribe (Request.ofUrl "u2")]
    ["u1", "u2"] ⟨[⟨"u1"⟩, ⟨"u2"⟩], []⟩
    [⟨"u1", to_json ⟨"p", "A"⟩⟩] rfl
    (.accepted (wellFormedSubscribe_ofUrl _) (.publish (.rejected
      (fun u h => by obtain ⟨_, j, hj, _⟩ := h; cases hj)
      (.deliver (.accepted (wellFormedSubscribe_ofUrl _) .nil)))))
    rfl⟩

/-- C13 (fan-out of one cycle): an iteration of the delivery loop on a
non-empty queue makes exactly one outbound call per entry of the registry as
it stands, in registry order (duplicates included), every call carries the
serialization of one and the same queued message, the registry is unchanged,
and exactly one message is removed from the queue. -/
theorem fan_out_of_one_cycle (s : Server) (h : s.published_messages ≠ []) :
    ∃ message ∈ s.published_messages, ∃ q',
      deliverer s =
        some ({ subscribers := s.subscribers, published_messages := q' },
          s.subscribers.map fun subscriber =>
            { url := subscriber.client_callback_url, body := to_json message }) ∧
      q'.length + 1 = s.published_messages.length := by
  obtain ⟨subs, q⟩ := s
  simp only at h
  refine ⟨q.getLast h, List.getLast_mem h, q.tail, ?_, ?_⟩
  · rw [deliverer_of_ne_nil subs q h]
    rfl
  · cases q with
    | nil => exact absurd rfl h
    | cons m q => simp

/-- Witness of C13: the registry holds the same URL twice and another one. -/
theorem fan_out_of_one_cycle_witness :
    ∃ message ∈ [(⟨"p", "A"⟩ : Message)], ∃ q',
      deliverer ⟨[⟨"u"⟩, ⟨"v"⟩, ⟨"u"⟩], [⟨"p", "A"⟩]⟩ =
        some ({ subscribers := [⟨"u"⟩, ⟨"v"⟩, ⟨"u"⟩], published_messages := q' },
          [(⟨"u"⟩ : Subscription), ⟨"v"⟩, ⟨"u"⟩].map fun subscriber =>
            { url := subscriber.client_callback_url, body := to_json message }) ∧
      q'.length + 1 = [(⟨"p", "A"⟩ : Message)].length :=
  fan_out_of_one_cycle ⟨[⟨"u"⟩, ⟨"v"⟩, ⟨"u"⟩], [⟨"p", "A"⟩]⟩ (by simp)


theorem deliverer_observed_nil (outcome : Nat → Bool) (subs : List Subscription) :
    deliverer_observed outcome { subscribers := subs, published_messages := [] } = none := by
  simp [deliverer_observed]

theorem deliverer_observed_cons (outcome : Nat → Bool) (subs : List Subscription)
    (m : Message) (q : List Message) :
    deliverer_observed outcome { subscribers := subs, published_messages := m :: q } =
      some ({ subscribers := subs, published_messages := q },
        (fan_out subs (to_json (q.getLast?.getD m))).enum.map fun p => (p.2, outcome p.1)) := by
  simp [deliverer_observed, queue_back, queue_pop, List.getLast?_cons]

theorem map_fst_enum_map (outcome : Nat → Bool) (calls : List Outbound) :
    (calls.enum.map fun p => (p.2, outcome p.1)).map Prod.fst = calls := by
  rw [List.map_map]
  have : (Prod.fst ∘ fun p : Nat × Outbound => (p.2, outcome p.1)) = Prod.snd := by
    funext p; rfl
  rw [this, List.enum_map_snd]

/-- The iteration with explicit outcomes is `deliverer`, whatever the
outcomes: the state afterwards and the calls made do not depend on them. -/
theorem deliverer_observed_forget (s : Server) (outcome : Nat → Bool) :
    (deliverer_observed outcome s).map (fun p => (p.1, p.2.map Prod.fst)) = deliverer s := by
  obtain ⟨subs, q⟩ := s
  cases q with
  | nil => simp [deliverer_observed_nil, deliverer_nil]
  | cons m q =>
    rw [deliverer_observed_cons, deliverer_cons]
    simp only [Option.map_some']
    rw [map_fst_enum_map]

/-- C15 fails as stated: with one subscriber and one queued message, the
iteration of the delivery loop takes the lock, waits, reads the message, makes
the outbound call, pops and only then releases the lock; the lock is held
when the call is made. -/
theorem copy_then_release_counterexample :
    deliverer_actions ⟨[⟨"http://sub/inbox"⟩], [⟨"p", "A"⟩]⟩ =
      [.lock, .wait_predicate true, .back ⟨"p", "A"⟩,
       .send ⟨"http://sub/inbox", to_json ⟨"p", "A"⟩⟩, .pop, .unlock] ∧
    lock_held [.lock, .wait_predicate true, .back ⟨"p", "A"⟩] = true :=
  ⟨rfl, rfl⟩

/-- C15 as amended: in every iteration of the delivery loop on a non-empty
queue the lock is taken first and released last, after the removal from the
queue; between the two the loop reads one queued message and makes one
outbound call per entry of the registry itself (no snapshot is taken), so
every outbound call of the iteration is made while the lock is held. -/
theorem lock_held_across_deliveries (s : Server) (h : s.published_messages ≠ []) :
    (∃ message ∈ s.published_messages,
      deliverer_actions s =
        [.lock, .wait_predicate true, .back message] ++
          (fan_out s.subscribers (to_json message)).map Action.send ++ [.pop, .unlock]) ∧
    (∀ pre o post, deliverer_actions s = pre ++ Action.send o :: post →
      lock_held pre = true) := by
  constructor
  · obtain ⟨subs, q⟩ := s
    cases q with
    | nil => exact absurd rfl h
    | cons m q =>
      refine ⟨q.getLast?.getD m, ?_, ?_⟩
      · have : (m :: q).getLast? = some (q.getLast?.getD m) := List.getLast?_cons
        exact List.mem_of_getLast?_eq_some this
      · rw [deliverer_actions_cons]
        simp
  · intro pre o post hd
    exact lock_held_of_under_lock
      (deliverer_actions_under_lock s (fun a => match a with | .send _ => true | _ => false) rfl)
      hd rfl

/-- Witness of the amended C15: two subscribers, two queued messages. -/
theorem lock_held_across_deliveries_witness :
    lock_held [.lock, .wait_predicate true, .back ⟨"p", "B"⟩,
      .send ⟨"u", to_json ⟨"p", "B"⟩⟩] = true :=
  (lock_held_across_deliveries ⟨[⟨"u"⟩, ⟨"v"⟩], [⟨"p", "A"⟩, ⟨"p", "B"⟩]⟩ (by simp)).2
    [.lock, .wait_predicate true, .back ⟨"p", "B"⟩, .send ⟨"u", to_json ⟨"p", "B"⟩⟩]
    ⟨"v", to_json ⟨"p", "B"⟩⟩ [.pop, .unlock] rfl


theorem subscribe_published_messages (s : Server) (request : Request) :
    (subscribe s request).1.published_messages = s.published_messages := by
  unfold subscribe
  cases h : subscribe_try s request with
  | error e => rfl
  | ok s' =>
    unfold subscribe_try at h
    cases hh : request.has "/json" with
    | true => simp [hh, bind, Except.bind, throw, throwThe, MonadExceptOf.throw] at h
    | false =>
      cases hp : request.parse with
      | error e => simp [hh, hp, bind, Except.bind, pure, Except.pure] at h
      | ok j =>
        cases hf : from_json_subscription j with
        | error e => simp [hh, hp, hf, bind, Except.bind, pure, Except.pure] at h
        | ok sub =>
          simp [hh, hp, hf, bind, Except.bind, pure, Except.pure] at h
          subst h
          rfl

/-- C17 (cooperative shutdown), evaluated on the code: whatever the state of
the broker and however many iterations of the delivery loop are followed, the
thread function has not returned, so the destructor, which joins the worker,
has not returned either. -/
theorem destructor_never_returns (fuel : Nat) (s : Server) :
    deliverer_thread fuel s = none ∧ Server.destroy fuel s = none := by
  have h := deliverer_thread_none fuel s
  exact ⟨h, by simp [Server.destroy, h]⟩

/-- C19 (observed dequeue discipline): an iteration of the delivery loop on a
queue `q` of length at least 1 sends, to every registry entry, the
serialization of the last element of `q`, and leaves the queue `q` without
its first element. -/
theorem observed_dequeue_discipline (s : Server) (h : s.published_messages ≠ []) :
    deliverer s =
      some ({ subscribers := s.subscribers,
              published_messages := s.published_messages.drop 1 },
        fan_out s.subscribers (to_json (s.published_messages.getLast h))) ∧
    (∀ o ∈ fan_out s.subscribers (to_json (s.published_messages.getLast h)),
      o.body = to_json (s.published_messages.getLast h)) := by
  obtain ⟨subs, q⟩ := s
  simp only at h
  refine ⟨?_, fun o ho => (mem_fan_out ho).1⟩
  rw [deliverer_of_ne_nil subs q h]
  simp

/-- Witness of C19: the queue A, B, C with one subscriber. -/
theorem observed_dequeue_discipline_witness :
    deliverer ⟨[⟨"u"⟩], [⟨"p", "A"⟩, ⟨"p", "B"⟩, ⟨"p", "C"⟩]⟩ =
      some (⟨[⟨"u"⟩], [⟨"p", "B"⟩, ⟨"p", "C"⟩]⟩, [⟨"u", to_json ⟨"p", "C"⟩⟩]) :=
  (observed_dequeue_discipline ⟨[⟨"u"⟩], [⟨"p", "A"⟩, ⟨"p", "B"⟩, ⟨"p", "C"⟩]⟩
    (by simp)).1


theorem publish_cases (s : Server) (request : Request) :
    (∃ m, WellFormedPublish request m ∧
      (publish s request).1 =
        { subscribers := s.subscribers, published_messages := s.published_messages ++ [m] }) ∨
    (publish s request).1 = s := by
  by_cases h : ∃ m, WellFormedPublish request m
  · obtain ⟨m, hm⟩ := h
    exact Or.inl ⟨m, hm, by rw [publish_wellFormed s hm]⟩
  · right
    have : ∀ j, request.json = some j → ∀ m, from_json j ≠ .ok m ∨ request.has "/json" = true := by
      intro j hj m
      by_cases hh : request.has "/json" = true
      · exact Or.inr hh
      · left
        intro hm
        exact h ⟨m, by simpa using hh, j, hj, fields_of_from_json hm⟩
    cases hh : request.has "/json" with
    | true => simp [publish, publish_try, hh, bind, Except.bind, throw, throwThe,
        MonadExceptOf.throw]
    | false =>
      obtain ⟨e, he⟩ := publish_of_error s request (fun j hj m => by
        rcases this j hj m with h1 | h1
        · exact h1
        · rw [hh] at h1; cases h1)
      rw [he]

theorem acceptedBy_cons {e : Event} {es : List Event} {m : Message}
    (h : AcceptedBy es m) : AcceptedBy (e :: es) m := by
  obtain ⟨r, hr, hwf⟩ := h
  exact ⟨r, List.mem_cons_of_mem _ hr, hwf⟩

/-- Every queued message and every payload of a run comes from the queue the
run started with or from a Publish request the run accepted. -/
theorem run_messages {s s' : Server} {es : List Event} {l : List Outbound}
    (h : run s es = some (s', l)) :
    (∀ m ∈ s'.published_messages, m ∈ s.published_messages ∨ AcceptedBy es m) ∧
    (∀ o ∈ l, ∃ m, (m ∈ s.published_messages ∨ AcceptedBy es m) ∧ o.body = to_json m) := by
  induction es generalizing s l with
  | nil =>
    simp only [run, Option.some.injEq, Prod.mk.injEq] at h
    obtain ⟨rfl, rfl⟩ := h
    exact ⟨fun m hm => Or.inl hm, fun o ho => absurd ho (List.not_mem_nil _)⟩
  | cons e es ih =>
    obtain ⟨t, k1, k2, hstep, hrest, rfl⟩ := run_cons_inv h
    obtain ⟨ihq, ihl⟩ := ih hrest
    have hq : ∀ m ∈ t.published_messages, m ∈ s.published_messages ∨ AcceptedBy (e :: es) m := by
      cases e with
      | subscribe r =>
        simp only [step, Option.some.injEq, Prod.mk.injEq] at hstep
        intro m hm
        rw [← hstep.1, subscribe_published_messages] at hm
        exact Or.inl hm
      | publish r =>
        simp only [step, Option.some.injEq, Prod.mk.injEq] at hstep
        intro m hm
        rw [← hstep.1] at hm
        rcases publish_cases s r with ⟨m', hwf, hs⟩ | hs
        · rw [hs] at hm
          rcases List.mem_append.mp hm with hm | hm
          · exact Or.inl hm
          · simp only [List.mem_singleton] at hm
            subst hm
            exact Or.inr ⟨r, List.mem_cons_self _ _, hwf⟩
        · rw [hs] at hm
          exact Or.inl hm
      | deliver =>
        obtain ⟨m0, q, hq0, rfl, _⟩ := deliverer_inv hstep
        intro m hm
        simp only at hm
        exact Or.inl (by rw [hq0]; exact List.mem_cons_of_mem _ hm)
    have hk1 : ∀ o ∈ k1, ∃ m, m ∈ s.published_messages ∧ o.body = to_json m := by
      cases e with
      | subscribe r =>
        simp only [step, Option.some.injEq, Prod.mk.injEq] at hstep
        rw [← hstep.2]; simp
      | publish r =>
        simp only [step, Option.some.injEq, Prod.mk.injEq] at hstep
        rw [← hstep.2]; simp
      | deliver =>
        obtain ⟨m0, q, hq0, _, rfl⟩ := deliverer_inv hstep
        intro o ho
        refine ⟨q.getLast?.getD m0, ?_, (mem_fan_out ho).1⟩
        rw [hq0]
        exact List.mem_of_getLast?_eq_some List.getLast?_cons
    constructor
    · intro m hm
      rcases ihq m hm with h1 | h1
      · exact hq m h1
      · exact Or.inr (acceptedBy_cons h1)
    · intro o ho
      rcases List.mem_append.mp ho with ho | ho
      · obtain ⟨m, hm, hb⟩ := hk1 o ho
        exact ⟨m, Or.inl hm, hb⟩
      · obtain ⟨m, hm, hb⟩ := ihl o ho
        rcases hm with hm | hm
        · exact ⟨m, hq m hm, hb⟩
        · exact ⟨m, Or.inr (acceptedBy_cons hm), hb⟩

/-- C20 (messages are immutable and never invented): in every run from an
empty queue, every message in the queue was accepted by a Publish request of
the run, whose body carries its author and contents, and every payload sent
so far is the serialization of such a message.  The run being arbitrary, this
holds at every moment of every run. -/
theorem messages_never_invented (s s' : Server) (es : List Event) (log : List Outbound)
    (hq : s.published_messages = []) (h : run s es = some (s', log)) :
    (∀ m ∈ s'.published_messages, AcceptedBy es m) ∧
    (∀ o ∈ log, ∃ m, AcceptedBy es m ∧ o.body = to_json m) := by
  obtain ⟨h1, h2⟩ := run_messages h
  rw [hq] at h1 h2
  constructor
  · intro m hm
    rcases h1 m hm with h | h
    · exact absurd h (List.not_mem_nil _)
    · exact h
  · intro o ho
    obtain ⟨m, hm, hb⟩ := h2 o ho
    rcases hm with h | h
    · exact absurd h (List.not_mem_nil _)
    · exact ⟨m, h, hb⟩

/-- Witness of C20: two publishes, a registration and one iteration. -/
theorem messages_never_invented_witness :
    (∀ m ∈ [(⟨"p", "B"⟩ : Message)],
      AcceptedBy [.subscribe (Request.ofUrl "u"), .publish (Request.ofMessage ⟨"p", "A"⟩),
        .publish (Request.ofMessage ⟨"p", "B"⟩), .deliver] m) ∧
    (∀ o ∈ [(⟨"u", to_json ⟨"p", "B"⟩⟩ : Outbound)], ∃ m,
      AcceptedBy [.subscribe (Request.ofUrl "u"), .publish (Request.ofMessage ⟨"p", "A"⟩),
        .publish (Request.ofMessage ⟨"p", "B"⟩), .deliver] m ∧ o.body = to_json m) :=
  messages_never_invented Server.fresh ⟨[⟨"u"⟩], [⟨"p", "B"⟩]⟩
    [.subscribe (Request.ofUrl "u"), .publish (Request.ofMessage ⟨"p", "A"⟩),
     .publish (Request.ofMessage ⟨"p", "B"⟩), .deliver]
    [⟨"u", to_json ⟨"p", "B"⟩⟩] rfl rfl

end Lab13

namespace Lab13

/-! ## Backlog and its absence -/

theorem run_publishes_messages (s : Server) {reqs : List Request} {msgs : List Message}
    (hwf : List.Forall₂ WellFormedPublish reqs msgs) :
    run s (reqs.map Event.publish) =
      some ({ subscribers := s.subscribers,
              published_messages := s.published_messages ++ msgs }, []) := by
  induction hwf generalizing s with
  | nil => simp [run]
  | cons hm _ ih =>
    rw [List.map_cons, run_cons_some (step_publish_wellFormed s hm) (ih _)]
    simp

theorem flatMap_replicate_unit (k : Nat) (subs : List Subscription) (body : Json) :
    ((List.replicate k ()).flatMap fun _ => fan_out subs body) =
      (List.replicate k body).flatMap (fan_out subs) := by
  induction k with
  | zero => rfl
  | succ k ih => simp [List.replicate_succ, ih]

theorem mem_flatMap_fan_out {subs : List Subscription} {bodies : List Json} {o : Outbound}
    (h : o ∈ bodies.flatMap (fan_out subs)) : o.body ∈ bodies := by
  rw [List.mem_flatMap] at h
  obtain ⟨b, hb, ho⟩ := h
  rw [(mem_fan_out ho).1]
  exact hb

/-- C21 (backlog drain): when `k >= 1` well-formed messages `m1, ..., mk` are
published to a broker with an empty queue and `k` iterations of the delivery
loop follow, the run takes place and empties the queue, it consists of `k`
fan-outs of the payload of `mk` over the registry (every registry entry gets
it exactly `k` times), every call carries the payload of `mk`, and no call
carries the payload of a message different from `mk`. -/
theorem backlog_drain (s : Server) (reqs : List Request) (msgs : List Message)
    (hq : s.published_messages = []) (hwf : List.Forall₂ WellFormedPublish reqs msgs)
    (hne : msgs ≠ []) :
    ∃ log,
      run s (reqs.map Event.publish ++ List.replicate msgs.length Event.deliver) =
        some ({ subscribers := s.subscribers, published_messages := [] }, log) ∧
      log = (List.replicate msgs.length (to_json (msgs.getLast hne))).flatMap
        (fan_out s.subscribers) ∧
      (∀ u, log.countP (fun o => o.url = u) =
        msgs.length * s.subscribers.countP (fun sub => sub.client_callback_url = u)) ∧
      (∀ o ∈ log, o.body = to_json (msgs.getLast hne)) ∧
      (∀ m, m ≠ msgs.getLast hne → ∀ u, (⟨u, to_json m⟩ : Outbound) ∉ log) := by
  have hpub := run_publishes_messages s hwf
  rw [hq, List.nil_append] at hpub
  have hrun := run_append_some hpub (run_drain s.subscribers msgs)
  rw [List.nil_append, flatMap_replicate_unit] at hrun
  have hlast : msgs.getLast?.getD ⟨"", ""⟩ = msgs.getLast hne := by
    rw [List.getLast?_eq_getLast _ hne]; rfl
  rw [hlast] at hrun
  have hbody : ∀ o ∈ (List.replicate msgs.length (to_json (msgs.getLast hne))).flatMap
      (fan_out s.subscribers), o.body = to_json (msgs.getLast hne) := by
    intro o ho
    exact List.eq_of_mem_replicate (mem_flatMap_fan_out ho)
  refine ⟨_, hrun, rfl, ?_, hbody, ?_⟩
  · intro u
    rw [countP_flatMap_fan_out, List.length_replicate]
  · intro m hm u hmem
    exact hm (to_json_injective (hbody _ hmem))

/-- Witness of C21: A, B, C published, then three iterations, two subscribers. -/
theorem backlog_drain_witness :
    ∃ log,
      run ⟨[⟨"u"⟩, ⟨"v"⟩], []⟩
          ([Request.ofMessage ⟨"p", "A"⟩, Request.ofMessage ⟨"p", "B"⟩,
              Request.ofMessage ⟨"p", "C"⟩].map Event.publish ++
            List.replicate [(⟨"p", "A"⟩ : Message), ⟨"p", "B"⟩, ⟨"p", "C"⟩].length
              Event.deliver) =
        some ({ subscribers := [⟨"u"⟩, ⟨"v"⟩], published_messages := [] }, log) ∧
      log = (List.replicate [(⟨"p", "A"⟩ : Message), ⟨"p", "B"⟩, ⟨"p", "C"⟩].length
          (to_json ⟨"p", "C"⟩)).flatMap (fan_out [⟨"u"⟩, ⟨"v"⟩]) ∧
      (∀ u, log.countP (fun o => o.url = u) =
        [(⟨"p", "A"⟩ : Message), ⟨"p", "B"⟩, ⟨"p", "C"⟩].length *
          [(⟨"u"⟩ : Subscription), ⟨"v"⟩].countP (fun sub => sub.client_callback_url = u)) ∧
      (∀ o ∈ log, o.body = to_json ⟨"p", "C"⟩) ∧
      (∀ m, m ≠ (⟨"p", "C"⟩ : Message) → ∀ u, (⟨u, to_json m⟩ : Outbound) ∉ log) :=
  backlog_drain ⟨[⟨"u"⟩, ⟨"v"⟩], []⟩ _ [⟨"p", "A"⟩, ⟨"p", "B"⟩, ⟨"p", "C"⟩] rfl
    (.cons (wellFormedPublish_ofMessage _) (.cons (wellFormedPublish_ofMessage _)
      (.cons (wellFormedPublish_ofMessage _) .nil))) (by simp)

end Lab13

namespace Lab13

theorem step_quiet (s : Server) {e : Event}
    (h : (∃ r, e = .subscribe r) ∨ ∃ r, e = .publish r ∧ ∀ m, ¬ WellFormedPublish r m) :
    ∃ s1, step s e = some (s1, []) ∧ s1.published_messages = s.published_messages ∧
      s.subscribers <+: s1.subscribers := by
  rcases h with ⟨r, rfl⟩ | ⟨r, rfl, hno⟩
  · exact ⟨_, rfl, subscribe_published_messages s r, subscribe_registry_grows s r⟩
  · refine ⟨_, rfl, ?_, ?_⟩
    · rcases publish_cases s r with ⟨m, hm, _⟩ | hs
      · exact absurd hm (hno m)
      · rw [hs]
    · rw [publish_subscribers]

theorem run_quiet (s : Server) {mid : List Event}
    (h : ∀ e ∈ mid,
      (∃ r, e = .subscribe r) ∨ ∃ r, e = .publish r ∧ ∀ m, ¬ WellFormedPublish r m) :
    ∃ s1, run s mid = some (s1, []) ∧ s1.published_messages = s.published_messages ∧
      s.subscribers <+: s1.subscribers := by
  induction mid generalizing s with
  | nil => exact ⟨s, rfl, rfl, List.prefix_refl _⟩
  | cons e es ih =>
    obtain ⟨s1, h1, hq1, hp1⟩ := step_quiet s (h e (List.mem_cons_self _ _))
    obtain ⟨s2, h2, hq2, hp2⟩ := ih s1 (fun x hx => h x (List.mem_cons_of_mem _ hx))
    exact ⟨s2, by simpa using run_cons_some h1 h2, hq2.trans hq1, hp1.trans hp2⟩

theorem run_noBacklog (s : Server) {es : List Event} {ms : List Message}
    (hq : s.published_messages = []) (h : NoBacklog es ms) :
    ∃ s' blocks, run s es = some (s', blocks.flatten) ∧ s'.published_messages = [] ∧
      List.Forall₂ (fun m block =>
        ∃ subs, s.subscribers <+: subs ∧ block = fan_out subs (to_json m)) ms blocks := by
  induction h generalizing s with
  | nil => exact ⟨s, [], rfl, hq, .nil⟩
  | quiet hquiet _ ih =>
    obtain ⟨s1, h1, hq1, hp1⟩ := step_quiet s hquiet
    obtain ⟨s', blocks, hrun, hq', hall⟩ := ih s1 (hq1.trans hq)
    refine ⟨s', blocks, by simpa using run_cons_some h1 hrun, hq', ?_⟩
    exact hall.imp fun m block ⟨subs, hp, hb⟩ => ⟨subs, hp1.trans hp, hb⟩
  | @round r m mid es ms hwf hmid _ ih =>
    have h1 := step_publish_wellFormed s hwf
    rw [hq, List.nil_append] at h1
    obtain ⟨s1, h2, hq1, hp1⟩ := run_quiet ⟨s.subscribers, [m]⟩ hmid
    obtain ⟨subs1, q1⟩ := s1
    simp only at hq1 hp1
    subst hq1
    have h3 : step ⟨subs1, [m]⟩ Event.deliver =
        some (⟨subs1, []⟩, fan_out subs1 (to_json m)) := by
      simp [step, deliverer_cons]
    obtain ⟨s', blocks, hrun, hq', hall⟩ := ih ⟨subs1, []⟩ rfl
    have hrest := run_append_some h2 (run_cons_some h3 hrun)
    have hfull := run_cons_some h1 hrest
    refine ⟨s', fan_out subs1 (to_json m) :: blocks, by simpa using hfull, hq', ?_⟩
    refine .cons ⟨subs1, hp1, rfl⟩ ?_
    exact hall.imp fun m block ⟨subs, hp, hb⟩ => ⟨subs, hp1.trans hp, hb⟩

theorem getElem?_fan_out_of_registry {subs subs' : List Subscription} (hp : subs <+: subs')
    (body : Json) {i : Nat} (hi : i < subs.length) :
    (fan_out subs' body)[i]? = some ⟨subs[i].client_callback_url, body⟩ := by
  obtain ⟨t, rfl⟩ := hp
  rw [fan_out, List.map_append, List.getElem?_append_left (by simpa using hi),
    List.getElem?_map, List.getElem?_eq_getElem hi]
  rfl

theorem received_of_blocks {subs0 : List Subscription} {ms : List Message}
    {blocks : List (List Outbound)}
    (hall : List.Forall₂ (fun m block =>
      ∃ subs, subs0 <+: subs ∧ block = fan_out subs (to_json m)) ms blocks)
    {i : Nat} (hi : i < subs0.length) :
    blocks.map (fun block => block[i]?) =
      ms.map fun m => some ⟨subs0[i].client_callback_url, to_json m⟩ := by
  induction hall with
  | nil => rfl
  | cons hb _ ih =>
    obtain ⟨subs, hp, rfl⟩ := hb
    simp only [List.map_cons, ih, getElem?_fan_out_of_registry hp _ hi]

/-- C22 (FIFO without backlog): a run from an empty queue in which every
accepted Publish is followed by an iteration of the delivery loop before the
next one takes place, empties the queue, and consists of one fan-out per
published message, in publish order, over a registry that extends the one the
run started with; so every subscriber registered from the start receives
every published message exactly once, in publish order. -/
theorem fifo_without_backlog (s : Server) (es : List Event) (ms : List Message)
    (hq : s.published_messages = []) (h : NoBacklog es ms) :
    ∃ s' blocks, run s es = some (s', blocks.flatten) ∧ s'.published_messages = [] ∧
      List.Forall₂ (fun m block =>
        ∃ subs, s.subscribers <+: subs ∧ block = fan_out subs (to_json m)) ms blocks ∧
      ∀ i (hi : i < s.subscribers.length),
        blocks.map (fun block => block[i]?) =
          ms.map fun m => some ⟨s.subscribers[i].client_callback_url, to_json m⟩ := by
  obtain ⟨s', blocks, hrun, hq', hall⟩ := run_noBacklog s hq h
  refine ⟨s', blocks, hrun, hq', hall, ?_⟩
  intro i hi
  exact received_of_blocks hall hi

/-- Witness of C22: A, then a registration, then B, each followed by an
iteration of the delivery loop. -/
theorem fifo_without_backlog_witness :
    ∃ s' blocks,
      run ⟨[⟨"u"⟩], []⟩
          (Event.publish (Request.ofMessage ⟨"p", "A"⟩) :: [] ++ Event.deliver ::
            (Event.subscribe (Request.ofUrl "v") ::
              (Event.publish (Request.ofMessage ⟨"p", "B"⟩) :: [] ++ Event.deliver :: []))) =
        some (s', blocks.flatten) ∧ s'.published_messages = [] ∧
      List.Forall₂ (fun m block =>
        ∃ subs, [(⟨"u"⟩ : Subscription)] <+: subs ∧ block = fan_out subs (to_json m))
        [⟨"p", "A"⟩, ⟨"p", "B"⟩] blocks ∧
      ∀ i (hi : i < [(⟨"u"⟩ : Subscription)].length),
        blocks.map (fun block => block[i]?) =
          [(⟨"p", "A"⟩ : Message), ⟨"p", "B"⟩].map fun m =>
            some ⟨[(⟨"u"⟩ : Subscription)][i].client_callback_url, to_json m⟩ :=
  fifo_without_backlog ⟨[⟨"u"⟩], []⟩ _ [⟨"p", "A"⟩, ⟨"p", "B"⟩] rfl
    (.round (wellFormedPublish_ofMessage _) (by simp)
      (.quiet (Or.inl ⟨_, rfl⟩)
        (.round (wellFormedPublish_ofMessage _) (by simp) .nil)))

end Lab13

namespace Lab13

theorem from_json_to_json (m : Message) : from_json (to_json m) = .ok m :=
  from_json_of_fields ⟨_, rfl, by simp⟩ ⟨_, rfl, by simp [List.lookup]⟩

/-- C23 (JSON round trip of the wire message): for every message `m`,
`from_json` applied to the object `to_json` produces yields `m`, and the
subscriber's inbox handler decodes every call of a fan-out of `m` to `m` and
answers Ok. -/
theorem json_round_trip (m : Message) :
    from_json (to_json m) = .ok m ∧
    (∀ subs, ∀ o ∈ fan_out subs (to_json m),
      inbox_try (Request.ofOutbound o) = .ok m ∧
      inbox (Request.ofOutbound o) = .Ok "Received!") := by
  refine ⟨from_json_to_json m, ?_⟩
  intro subs o ho
  have hb := (mem_fan_out ho).1
  have h : inbox_try (Request.ofOutbound o) = .ok m := by
    simp [inbox_try, Request.ofOutbound, Request.parse, hb, from_json_to_json, bind,
      Except.bind, pure, Except.pure]
  exact ⟨h, by simp [inbox, h]⟩

/-- Witness of C23: a message with an empty author and a quote in its contents,
delivered to one subscriber. -/
theorem json_round_trip_witness :
    inbox_try (Request.ofOutbound ⟨"http://sub/inbox", to_json ⟨"", "say \"hi\""⟩⟩) =
      .ok ⟨"", "say \"hi\""⟩ ∧
    inbox (Request.ofOutbound ⟨"http://sub/inbox", to_json ⟨"", "say \"hi\""⟩⟩) =
      .Ok "Received!" :=
  (json_round_trip ⟨"", "say \"hi\""⟩).2 [⟨"http://sub/inbox"⟩] _ (by simp [fan_out])

end Lab13

namespace PocztaClient

/-- C24 (base64 buffer size), evaluated on the code: for an input of 1 byte the
buffer has 1 byte and the encoding 4; for an input of 2 bytes, 2 and 4; and
for every input length that is not a multiple of 3 the buffer is smaller than
the encoding. -/
theorem base64_buffer_too_small :
    base64_buffer_size 1 = 1 ∧ base64_encoded_length 1 = 4 ∧
    base64_buffer_size 2 = 2 ∧ base64_encoded_length 2 = 4 ∧
    ∀ n, n % 3 ≠ 0 → base64_buffer_size n < base64_encoded_length n := by
  refine ⟨by decide, by decide, by decide, by decide, ?_⟩
  intro n hn
  have h2 : 4 * n / 3 < 4 * ((n + 2) / 3) := by
    have hr : n % 3 = 1 ∨ n % 3 = 2 := by omega
    rcases hr with hr | hr
    · obtain ⟨k, rfl⟩ : ∃ k, n = 3 * k + 1 := ⟨n / 3, by omega⟩
      omega
    · obtain ⟨k, rfl⟩ : ∃ k, n = 3 * k + 2 := ⟨n / 3, by omega⟩
      omega
  have h1 : (4 * n) % 2 ^ 64 / 3 ≤ 4 * n / 3 :=
    Nat.div_le_div_right (Nat.mod_le _ _)
  exact Nat.lt_of_le_of_lt h1 h2

end PocztaClient

namespace Lab11

/-- C25 (`dbDeleteMessage`): for an index inside the store the call succeeds
and the store afterwards is the old one without the element at that index:
one element shorter, the elements before the index in place, every later
element one index down; for an index outside the store the call throws and
the store is unchanged. -/
theorem dbDeleteMessage_effect {α : Type} (messages : List α) (id : Nat) :
    (id < messages.length →
      dbDeleteMessage messages id =
        (messages.take id ++ messages.drop (id + 1), .ok ()) ∧
      (dbDeleteMessage messages id).1.length + 1 = messages.length ∧
      (∀ i, i < id → (dbDeleteMessage messages id).1[i]? = messages[i]?) ∧
      (∀ i, id ≤ i → (dbDeleteMessage messages id).1[i]? = messages[i + 1]?)) ∧
    (messages.length ≤ id →
      ∃ e, dbDeleteMessage messages id = (messages, .error e)) := by
  constructor
  · intro h
    have hd : dbDeleteMessage messages id = (messages.eraseIdx id, .ok ()) := by
      simp [dbDeleteMessage, Nat.not_le.mpr h]
    rw [hd]
    refine ⟨by rw [List.eraseIdx_eq_take_drop_succ], ?_, ?_, ?_⟩
    · simp only [List.length_eraseIdx, h, if_true]
      omega
    · intro i hi
      exact List.getElem?_eraseIdx_of_lt _ _ _ hi
    · intro i hi
      exact List.getElem?_eraseIdx_of_ge _ _ _ hi
  · intro h
    exact ⟨"No such message with id " ++ toString id, by simp [dbDeleteMessage, h]⟩

/-- Witness of C25: the second of the three initial messages is deleted. -/
theorem dbDeleteMessage_effect_witness :
    dbDeleteMessage [(⟨"Piotr", 0, "Cześć"⟩ : Message), ⟨"Jacek", 1, "Cześć"⟩,
        ⟨"Jarek", 2, "Cześć"⟩] 1 =
      ([(⟨"Piotr", 0, "Cześć"⟩ : Message), ⟨"Jacek", 1, "Cześć"⟩,
          ⟨"Jarek", 2, "Cześć"⟩].take 1 ++
        [(⟨"Piotr", 0, "Cześć"⟩ : Message), ⟨"Jacek", 1, "Cześć"⟩,
          ⟨"Jarek", 2, "Cześć"⟩].drop (1 + 1), .ok ()) :=
  ((dbDeleteMessage_effect [(⟨"Piotr", 0, "Cześć"⟩ : Message), ⟨"Jacek", 1, "Cześć"⟩,
    ⟨"Jarek", 2, "Cześć"⟩] 1).1 (by decide)).1

end Lab11

namespace Lab11

theorem c_str_of_no_nul {data : List Char} (h : ∀ c ∈ data, c ≠ Char.ofNat 0) :
    c_str data = data := by
  unfold c_str
  rw [List.takeWhile_eq_self_iff]
  intro c hc
  simpa using h c hc

/-- For a query without a NUL character the condition of the loop is the
initial-segment test. -/
theorem starts_with_iff_of_no_nul (contents query : String)
    (h : ∀ c ∈ query.data, c ≠ Char.ofNat 0) :
    starts_with contents query = true ↔ query.data <+: contents.data := by
  unfold starts_with substr0
  rw [c_str_of_no_nul h, List.prefix_iff_eq_take]
  simp only [beq_iff_eq, String.length]
  exact eq_comm

/-- For a query without a NUL character `dbGetMessagesStartingWith` returns, in
store order, the messages whose contents begin with the query. -/
theorem dbGetMessagesStartingWith_of_no_nul (messages : List Message) (query : String)
    (h : ∀ c ∈ query.data, c ≠ Char.ofNat 0) :
    dbGetMessagesStartingWith messages query =
      messages.filter fun message => query.data.isPrefixOf message.contents.data := by
  unfold dbGetMessagesStartingWith
  congr 1
  funext message
  rw [Bool.eq_iff_iff, starts_with_iff_of_no_nul _ _ h, List.isPrefixOf_iff_prefix]

/-- C26 (`dbGetMessagesStartingWith`), evaluated on the code with the query
`a`, NUL, `b` (three characters): the message with contents `a` is returned
although the query is longer than its contents and its contents do not begin
with the query, and the message whose contents are the query itself is not
returned. -/
theorem starting_with_diverges :
    dbGetMessagesStartingWith [⟨"Piotr", 0, "a"⟩] (String.mk ['a', Char.ofNat 0, 'b']) =
      [⟨"Piotr", 0, "a"⟩] ∧
    "a".length < (String.mk ['a', Char.ofNat 0, 'b']).length ∧
    ¬ (String.mk ['a', Char.ofNat 0, 'b']).data <+: "a".data ∧
    dbGetMessagesStartingWith [⟨"Jacek", 1, String.mk ['a', Char.ofNat 0, 'b']⟩]
      (String.mk ['a', Char.ofNat 0, 'b']) = [] ∧
    (String.mk ['a', Char.ofNat 0, 'b']).data <+:
      (String.mk ['a', Char.ofNat 0, 'b']).data := by
  refine ⟨by decide, by decide, ?_, by decide, List.prefix_refl _⟩
  intro h
  have := h.length_le
  simp at this

end Lab11

namespace Lab13

/-! ## Registration after the queue was drained -/

end Lab13

namespace Lab13

/-- C14 (fire-and-forget), evaluated on the code with every outbound call
succeeding: with one subscriber and A, B queued, the first iteration of the
delivery loop delivers B and removes A, so the delivered message B is still
in the queue and A is discarded without an attempt; the second iteration
repeats the attempt for B. -/
theorem fire_and_forget_diverges :
    deliverer_observed (fun _ => true)
        ⟨[⟨"http://sub/inbox"⟩], [⟨"p", "A"⟩, ⟨"p", "B"⟩]⟩ =
      some (⟨[⟨"http://sub/inbox"⟩], [⟨"p", "B"⟩]⟩,
        [(⟨"http://sub/inbox", to_json ⟨"p", "B"⟩⟩, true)]) ∧
    deliverer_observed (fun _ => true) ⟨[⟨"http://sub/inbox"⟩], [⟨"p", "B"⟩]⟩ =
      some (⟨[⟨"http://sub/inbox"⟩], []⟩,
        [(⟨"http://sub/inbox", to_json ⟨"p", "B"⟩⟩, true)]) ∧
    run ⟨[⟨"http://sub/inbox"⟩], [⟨"p", "A"⟩, ⟨"p", "B"⟩]⟩ [.deliver, .deliver] =
      some (⟨[⟨"http://sub/inbox"⟩], []⟩,
        [⟨"http://sub/inbox", to_json ⟨"p", "B"⟩⟩,
         ⟨"http://sub/inbox", to_json ⟨"p", "B"⟩⟩]) :=
  ⟨rfl, rfl, rfl⟩

/-! ## The worker's control state -/

end Lab13

namespace Lab13

end Lab13
